import Mathlib

/-!
Verification development for the github-issue-sync repository.

The definitions below are a shallow embedding, translated from the
TypeScript sources:
  * `src/lib/field-mapper.ts`   (class FieldMapper)
  * `src/lib/markdown-parser.ts` (class MarkdownParser, second revision in
    the file, the one with `folderLastModified` and `resolveStatusConflict`)
  * `src/lib/github-client.ts`  (class GitHubClient and class SyncEngine)

Modelling conventions, used throughout:
  * JS strings are Lean `String`s; `charCodeAt` enumeration is modelled by
    `utf16Units`, which expands astral-plane code points into surrogate
    pairs exactly as JS does.
  * JS `Date` values are epoch-millisecond `Int`s.  ISO timestamp strings
    stay `String`s; parsing one (`new Date(s).getTime()`) is an external
    builtin and is passed in as a function `jsDate : String → Int`.
  * `new Date().toISOString()` at the current instant is supplied through
    an `EngineCtx` value (`now`, `nowMs`).
  * JS objects keyed by issue number (`Record<number, …>`, `Map<number, …>`)
    are association lists with first-match lookup; key assignment replaces
    the first matching entry or appends.
  * The filesystem holding the task documents is the list of parsed
    documents it would be discovered as; writing a file replaces the entry
    with the same `filepath`.  The remote tracker is an association list
    from issue number to issue record.
  * External I/O (network, fs) is modelled as always succeeding, so the
    per-item `try/catch` error accumulation in the engine loop is never
    exercised; `SyncResult.errors` stays empty.  The fallible fetch path of
    `GitHubClient.getIssue`/`getIssues` is modelled separately and
    explicitly with `Except` and a per-number `FetchOutcome` oracle.
-/

/-! ## JS primitives: UTF-16 units, 32-bit truncation, base-36 rendering -/

/-- UTF-16 code units of a string, as JS `charCodeAt` enumerates them:
code points below `0x10000` are themselves, larger ones become a surrogate
pair. -/
def utf16Units (s : String) : List Nat :=
  s.data.foldr
    (fun c acc =>
      let n := c.toNat
      if n < 0x10000 then n :: acc
      else (0xD800 + (n - 0x10000) / 0x400) :: (0xDC00 + (n - 0x10000) % 0x400) :: acc)
    []

/-- JS ToInt32: wrap an integer into the signed 32-bit range. -/
def toInt32 (n : Int) : Int :=
  (n + 2147483648) % 4294967296 - 2147483648

/-- One iteration of FieldMapper.generateHash's loop, literally:
`hash = (hash << 5) - hash + char; hash = hash & hash;`
(`<<` truncates to 32 bits first, `& hash` truncates the sum). -/
def hashStep (h : Int) (c : Nat) : Int :=
  toInt32 (toInt32 (h * 32) - h + (c : Int))

/-- The same loop iteration on the unsigned 32-bit residue of the hash:
`h * 32 - h + c` reduced mod `2^32`.  `generateHash` runs the loop in this
representation (it keeps kernel evaluation cheap); the theorem
`generateHash_models_int32_loop` below proves it agrees with folding the
literal signed `hashStep`. -/
def hashStepU (h c : Nat) : Nat :=
  (h * 31 + c) % 4294967296

/-- Signed reading of an unsigned 32-bit residue. -/
def signedOfU (h : Nat) : Int :=
  (h : Int) - (if h < 2147483648 then 0 else 4294967296)

/-- Digit character for bases up to 36, lowercase, as JS `toString(36)`. -/
def base36Digit (n : Nat) : Char :=
  if n < 10 then Char.ofNat (48 + n) else Char.ofNat (87 + n)

/-- Fuelled base-36 digit accumulation (fuel ≥ 1 + value suffices). -/
def natToBase36Go : Nat → Nat → List Char → List Char
  | 0, _, acc => acc
  | fuel + 1, n, acc =>
    if n = 0 then acc
    else natToBase36Go fuel (n / 36) (base36Digit (n % 36) :: acc)

/-- JS `Number.prototype.toString(36)` for a natural number. -/
def natToBase36 (n : Nat) : String :=
  if n = 0 then "0" else String.mk (natToBase36Go (n + 1) n [])

/-- JS `Number.prototype.toString(36)` for a (32-bit) integer: negative
values are rendered with a leading minus sign. -/
def intToBase36 (i : Int) : String :=
  if i < 0 then "-" ++ natToBase36 i.natAbs else natToBase36 i.toNat

/-- FieldMapper.generateHash: the non-cryptographic 32-bit content hash,
rendered in base 36 (`hash.toString(36)` of the signed 32-bit value). -/
def generateHash (content : String) : String :=
  intToBase36 (signedOfU ((utf16Units content).foldl hashStepU 0))

/-! ## JSON.stringify fragments

`hashTask`/`hashIssue` hash `JSON.stringify` of a fixed-shape object.  The
serializer below reproduces JSON.stringify on those shapes: string escaping,
arrays, `null` for JS `null`, omission of `undefined`-valued keys.  Key
order is the object's insertion order; for the frontmatter object we fix it
to the declaration order of the `TaskFrontmatter` interface (YAML parsing
preserves document order; all comparisons made in this file serialize both
sides with the same order). -/

/-- JSON.stringify escaping of a single character. -/
def jsonEscapeChar (c : Char) : String :=
  if c = '"' then "\\\""
  else if c = '\\' then "\\\\"
  else if c = '\n' then "\\n"
  else if c = '\r' then "\\r"
  else if c = '\t' then "\\t"
  else if c.toNat = 8 then "\\b"
  else if c.toNat = 12 then "\\f"
  else if c.toNat < 32 then
    "\\u00" ++ String.mk [base36Digit (c.toNat / 16), base36Digit (c.toNat % 16)]
  else String.mk [c]

/-- JSON string literal. -/
def jsonStr (s : String) : String :=
  "\"" ++ String.join (s.data.map jsonEscapeChar) ++ "\""

/-- JSON array of strings. -/
def jsonStrList (l : List String) : String :=
  "[" ++ String.intercalate "," (l.map jsonStr) ++ "]"

/-- JSON for a nullable string (`null` for JS `null`). -/
def jsonNullableStr : Option String → String
  | none => "null"
  | some s => jsonStr s

/-- One `"key":value` member. -/
def jsonField (k v : String) : String :=
  jsonStr k ++ ":" ++ v

/-- Optional member: omitted (like an `undefined` value) when absent. -/
def jsonOptField (k : String) : Option String → Option String
  | none => none
  | some v => some (jsonField k (jsonStr v))

/-! ## Data model (`src/lib/types.ts`) -/

/-- TaskFrontmatter from `src/lib/types.ts`.  Optional fields are `Option`;
`status`, `severity`, `priority`, `type` are kept as strings, as the JS
values are plain strings at runtime. -/
structure TaskFrontmatter where
  created_utc : String
  completed_utc : Option String := none
  reporter : String
  title : String
  severity : String
  priority : String
  type : Option String := none
  component : List String
  labels : List String
  assignee : Option String := none
  status : Option String := none
  status_last_modified : Option String := none
  parent_epic : Option String := none
  epic_progress : Option String := none
  commit : Option String := none
  commit_url : Option String := none
  relates_to : Option (List String) := none
  due_date : Option String := none
deriving DecidableEq

/-- TaskDocument from `src/lib/types.ts`.  `lastModified` and
`folderLastModified` are JS `Date`s, modelled as epoch milliseconds. -/
structure TaskDocument where
  issueNumber : Int
  filename : String
  filepath : String
  frontmatter : TaskFrontmatter
  body : String
  lastModified : Int
  folderLastModified : Int
deriving DecidableEq

/-- GitHubIssueData from `src/lib/types.ts`. -/
structure GitHubIssueData where
  number : Int
  title : String
  body : Option String
  state : String
  labels : List String
  assignee : Option String
  created_at : String
  updated_at : String
  closed_at : Option String
deriving DecidableEq

/-- One entry of SyncState.issues. -/
structure SyncInfo where
  localHash : String
  remoteHash : String
  lastSyncedAt : String
deriving DecidableEq

/-- SyncState from `src/lib/types.ts`: the persisted `.sync-state.json`
shape.  The `issues` record is an association list keyed by issue number. -/
structure SyncState where
  lastSync : String
  issues : List (Int × SyncInfo)
deriving DecidableEq

/-- SyncConflict from `src/lib/types.ts`.  `remoteModified` is
`new Date(issue.updated_at)`; we keep the ISO string. -/
structure SyncConflict where
  issueNumber : Int
  filename : String
  localData : TaskDocument
  remoteData : GitHubIssueData
  localModified : Int
  remoteModified : String
deriving DecidableEq

/-- SyncResult from `src/lib/types.ts`. -/
structure SyncResult where
  pushed : List Int
  pulled : List Int
  conflicts : List SyncConflict
  skipped : List Int
  errors : List (Int × String)
deriving DecidableEq

/-! ## Association-list maps (JS objects / Maps keyed by issue number) -/

/-- First-match lookup, the observable behaviour of JS property access /
`Map.get`. -/
def lookupAssoc {α : Type} : List (Int × α) → Int → Option α
  | [], _ => none
  | p :: rest, n => if p.1 = n then some p.2 else lookupAssoc rest n

/-- Key assignment: replace the first entry with that key, or append.
Models `obj[n] = v` / `map.set(n, v)`. -/
def setAssoc {α : Type} : List (Int × α) → Int → α → List (Int × α)
  | [], n, v => [(n, v)]
  | p :: rest, n, v => if p.1 = n then (n, v) :: rest else p :: setAssoc rest n v

/-! ## Small string helpers shared by the embedded classes -/

/-- Does `pat` occur as a prefix of some suffix of `s` starting at index `i`
(counting from the given base)?  Returns the first such index. -/
def firstInfixIdxGo (pat : List Char) : List Char → Nat → Option Nat
  | [], i => if pat = [] then some i else none
  | c :: rest, i =>
    if pat.isPrefixOf (c :: rest) then some i else firstInfixIdxGo pat rest (i + 1)

/-- Index of the first occurrence of `pat` inside `s` (JS `indexOf` on
strings, in code-point positions). -/
def firstInfixIdx (s pat : List Char) : Option Nat :=
  firstInfixIdxGo pat s 0

/-- JS `String.prototype.includes`, used for the `/backlog/`-style path
tests. -/
def containsSubstr (s pat : String) : Bool :=
  (firstInfixIdx s.data pat.data).isSome

/-- ASCII lowercasing; JS `toLowerCase` restricted to the ASCII range,
which is all the source ever feeds it (status words, user handles). -/
def strLower (s : String) : String :=
  String.mk (s.data.map Char.toLower)

/-- JS whitespace class `\s` (core members). -/
def isJsSpace (c : Char) : Bool :=
  c = ' ' || c = '\t' || c = '\n' || c = '\r' || c.toNat = 12 || c.toNat = 11

/-- JS `String.prototype.trim`. -/
def jsTrim (cs : List Char) : List Char :=
  ((cs.dropWhile isJsSpace).reverse.dropWhile isJsSpace).reverse

/-- `String(n)` for a JS integer. -/
def jsIntToString (n : Int) : String :=
  toString n

/-- `String(n).padStart(3, '0')`. -/
def pad3 (n : Int) : String :=
  let s := jsIntToString n
  if 3 ≤ s.data.length then s
  else String.mk (List.replicate (3 - s.data.length) '0') ++ s

/-- `path.dirname`: the part before the final slash (no normalisation; the
engine only joins plain segments). -/
def pathDirname (p : String) : String :=
  match (p.data.reverse.dropWhile (· ≠ '/')).reverse with
  | [] => "."
  | l => String.mk (l.dropLast)

/-- `path.basename`: the part after the final slash. -/
def pathBasename (p : String) : String :=
  String.mk (p.data.reverse.takeWhile (· ≠ '/')).reverse ++ ""

/-- `path.join` of two plain segments. -/
def pathJoin (a b : String) : String :=
  a ++ "/" ++ b

/-! ## FieldMapper (`src/lib/field-mapper.ts`) -/

/-- FieldMapper.isValidLabel: a colon somewhere strictly inside the
label. -/
def isValidLabel (label : String) : Bool :=
  match label.data.findIdx? (· = ':') with
  | none => false
  | some i => decide (0 < i) && decide (i + 1 < label.data.length)

/-- FieldMapper.filterInvalidLabels, pure part: the returned list.  The
console warning and its process-lifetime dedup set are output-only and not
modelled. -/
def filterInvalidLabels (labels : List String) : List String :=
  labels.filter isValidLabel

/-- The static local-name → GitHub-username alias table. -/
def assigneeMap (a : String) : Option String :=
  if a = "thom" then some "thunter009" else none

/-- Placeholder values never forwarded as assignees. -/
def invalidAssignees : List String :=
  ["unassigned", "completed", "active", "backlog", "none", ""]

/-- Truthiness of an optional JS string (`undefined` and `""` are falsy). -/
def truthy : Option String → Bool
  | none => false
  | some s => s ≠ ""

/-- FieldMapper.buildIssueBody: prepend the HTML-comment metadata block
when any optional lineage field is set, then append the sync footer. -/
def buildIssueBody (fm : TaskFrontmatter) (body : String) : String :=
  let metadata : List String :=
    (if fm.reporter ≠ "" then ["**Reporter:** " ++ fm.reporter] else []) ++
    (if truthy fm.due_date then ["**Due Date:** " ++ fm.due_date.getD ""] else []) ++
    (if truthy fm.parent_epic then ["**Epic:** " ++ fm.parent_epic.getD ""] else []) ++
    (if truthy fm.epic_progress then ["**Progress:** " ++ fm.epic_progress.getD ""] else []) ++
    (match fm.relates_to with
     | some l => if 0 < l.length then ["**Related:** " ++ String.intercalate ", " l] else []
     | none => []) ++
    (if truthy fm.commit_url then ["**Commit:** " ++ fm.commit_url.getD ""] else [])
  let issueBody :=
    if metadata.length ≠ 0 then
      "<!-- metadata\n" ++ String.intercalate "\n" metadata ++ "\n-->\n\n" ++ body
    else body
  issueBody ++ "\n\n---\n\n*Synced from local task: " ++ fm.title ++ "*"

/-- The `{title, body, labels, assignee?, state}` update payload
FieldMapper.taskToGitHub produces. -/
structure GitHubIssueUpdate where
  title : String
  body : String
  labels : List String
  assignee : Option String
  state : String
deriving DecidableEq

/-- `[...new Set(labels)]`: deduplication keeping first occurrences. -/
def jsSetDedup (l : List String) : List String :=
  l.foldl (fun acc x => if acc.contains x then acc else acc ++ [x]) []

/-- FieldMapper.taskToGitHub.  Note: this revision of the mapper has no
title-prefix normalisation and no `keepTitlePrefixes` option — the title is
forwarded verbatim (relevant to claim C5). -/
def taskToGitHub (task : TaskDocument) : GitHubIssueUpdate :=
  let fm := task.frontmatter
  let validLabels := filterInvalidLabels fm.labels
  let labels :=
    validLabels ++
    fm.component.map (fun c => "component:" ++ c) ++
    ["priority:" ++ fm.priority, "severity:" ++ fm.severity] ++
    (match fm.type with | some t => ["type:" ++ t] | none => []) ++
    (match fm.status with | some st => ["status:" ++ st] | none => [])
  let state := if containsSubstr task.filepath "/completed/" then "closed" else "open"
  let assignee :=
    match fm.assignee with
    | none => none
    | some a =>
      if a = "" then none
      else if invalidAssignees.contains (strLower a) then none
      else some ((assigneeMap a).getD a)
  { title := fm.title
    body := buildIssueBody fm task.body
    labels := jsSetDedup labels
    assignee := assignee
    state := state }

/-- Result of FieldMapper.parseLabels. -/
structure ParsedLabels where
  labels : List String
  priority : Option String
  severity : Option String
  type : Option String
  component : List String
  status : Option String
deriving DecidableEq

/-- `label.replace(prefix, '')` under a `startsWith` guard. -/
def dropLabelMarker (label marker : String) : String :=
  String.mk (label.data.drop marker.data.length)

/-- FieldMapper.parseLabels: split prefixed labels into structured fields;
unprefixed labels are kept only in `key:value` form (the dropped-label
warning is output-only and not modelled). -/
def parseLabels (labels : List String) : ParsedLabels :=
  labels.foldl
    (fun r label =>
      if ("priority:").isPrefixOf label then
        { r with priority := some (dropLabelMarker label "priority:") }
      else if ("severity:").isPrefixOf label then
        { r with severity := some (dropLabelMarker label "severity:") }
      else if ("type:").isPrefixOf label then
        { r with type := some (dropLabelMarker label "type:") }
      else if ("component:").isPrefixOf label then
        { r with component := r.component ++ [dropLabelMarker label "component:"] }
      else if ("status:").isPrefixOf label then
        { r with status := some (dropLabelMarker label "status:") }
      else if isValidLabel label then
        { r with labels := r.labels ++ [label] }
      else r)
    { labels := [], priority := none, severity := none, type := none,
      component := [], status := none }

/-- Helper for FieldMapper.parseIssueBody: does the tail of the body after
the footer marker match the regex remainder `.*?\*\s*$` — some `*` with no
newline before it and only whitespace after it? -/
def footerTailMatches : List Char → Bool
  | [] => false
  | c :: rest =>
    (c = '*' && rest.all isJsSpace) || (c ≠ '\n' && footerTailMatches rest)

/-- Scan for the first position where the sync-footer pattern
`\n\n---\n\n\*Synced from local task:.*?\*\s*$` matches, and cut the body
there. -/
def stripSyncFooterGo (marker : List Char) : List Char → List Char
  | [] => []
  | c :: rest =>
    if marker.isPrefixOf (c :: rest) && footerTailMatches ((c :: rest).drop marker.length) then
      []
    else c :: stripSyncFooterGo marker rest

/-- Removal of the trailing `*Synced from local task: …*` footer. -/
def stripSyncFooter (cs : List Char) : List Char :=
  stripSyncFooterGo ("\n\n---\n\n*Synced from local task:").data cs

/-- FieldMapper.parseIssueBody, body component.  The TS also extracts a
`metadata` record from the `**Key:** value` lines of the comment block, but
no caller ever reads it, so only the returned body text is modelled.
Mirrors the two regex passes: the match test
`/<!-- metadata\n([\s\S]*?)\n-->/` gates the removal pass
`/<!-- metadata\n[\s\S]*?-->\n\n/` (note the second one ends at the first
`-->` followed by a blank line), then the sync footer is stripped and the
result trimmed. -/
def parseIssueBody (body : String) : String :=
  let cs := body.data
  let openMarker := ("<!-- metadata\n").data
  let afterRemoval :=
    match firstInfixIdx cs openMarker with
    | none => cs
    | some i =>
      let afterOpen := cs.drop (i + openMarker.length)
      match firstInfixIdx afterOpen ("\n-->").data with
      | none => cs
      | some _ =>
        match firstInfixIdx afterOpen ("-->\n\n").data with
        | none => cs
        | some k => cs.take i ++ afterOpen.drop (k + 5)
  String.mk (jsTrim (stripSyncFooter afterRemoval))

/-- The partial frontmatter FieldMapper.githubToTask returns.  Fields that
the TS object carries only conditionally are `Option`s whose `none` means
"key absent" (a spread then keeps the existing value); `assignee` is always
present (possibly `undefined`), so a spread always overwrites it. -/
structure PartialFrontmatter where
  title : String
  labels : List String
  priority : String
  severity : String
  component : List String
  assignee : Option String
  created_utc : String
  reporter : String
  type : Option String
  status : Option String
  completed_utc : Option String
deriving DecidableEq

/-- FieldMapper.githubToTask.  `now` stands for `new Date().toISOString()`
(used when a closed issue lacks `closed_at`).  The lineage fields
(`parent_epic`, …) are copied verbatim from `existingTask` when one is
given; since the merge target in the engine is that same task, they are
applied in `mergePartialFrontmatter` below. -/
def githubToTask (now : String) (issue : GitHubIssueData) :
    PartialFrontmatter × String :=
  let pl := parseLabels issue.labels
  let body := parseIssueBody (issue.body.getD "")
  let fm : PartialFrontmatter :=
    { title := issue.title
      labels := pl.labels
      priority := pl.priority.getD "medium"
      severity := pl.severity.getD "P2"
      component := pl.component
      assignee := match issue.assignee with
        | none => none
        | some a => if a = "" then none else some a
      created_utc := issue.created_at
      reporter := "System"
      type := pl.type
      status :=
        if issue.state = "closed" then some "completed"
        else pl.status
      completed_utc :=
        if issue.state = "closed" then some (issue.closed_at.getD now)
        else none }
  (fm, body)

/-- `created_utc`/`reporter` defaulting of githubToTask when an existing
task is supplied (`existingTask?.frontmatter.created_utc || issue.created_at`). -/
def githubToTaskWithExisting (now : String) (issue : GitHubIssueData)
    (existing : TaskDocument) : PartialFrontmatter × String :=
  let (fm, body) := githubToTask now issue
  ({ fm with
      created_utc :=
        if existing.frontmatter.created_utc ≠ "" then existing.frontmatter.created_utc
        else issue.created_at
      reporter :=
        if existing.frontmatter.reporter ≠ "" then existing.frontmatter.reporter
        else "System" }, body)

/-- The engine's `{...existingTask.frontmatter, ...frontmatter}` spread:
always-present keys overwrite, conditional keys overwrite only when
present, keys githubToTask never emits (status_last_modified and, with an
existing task, the lineage fields it copies back unchanged) keep the
existing values. -/
def mergePartialFrontmatter (existing : TaskFrontmatter)
    (p : PartialFrontmatter) : TaskFrontmatter :=
  { created_utc := p.created_utc
    completed_utc := match p.completed_utc with
      | some c => some c
      | none => existing.completed_utc
    reporter := p.reporter
    title := p.title
    severity := p.severity
    priority := p.priority
    type := match p.type with
      | some t => some t
      | none => existing.type
    component := p.component
    labels := p.labels
    assignee := p.assignee
    status := match p.status with
      | some s => some s
      | none => existing.status
    status_last_modified := existing.status_last_modified
    parent_epic := existing.parent_epic
    epic_progress := existing.epic_progress
    commit := existing.commit
    commit_url := existing.commit_url
    relates_to := existing.relates_to
    due_date := existing.due_date }

/-- JSON.stringify of a TaskFrontmatter object, keys in interface
declaration order, `undefined` (absent) keys omitted. -/
def serializeFrontmatter (fm : TaskFrontmatter) : String :=
  let fields : List (Option String) :=
    [ some (jsonField "created_utc" (jsonStr fm.created_utc)),
      jsonOptField "completed_utc" fm.completed_utc,
      some (jsonField "reporter" (jsonStr fm.reporter)),
      some (jsonField "title" (jsonStr fm.title)),
      some (jsonField "severity" (jsonStr fm.severity)),
      some (jsonField "priority" (jsonStr fm.priority)),
      jsonOptField "type" fm.type,
      some (jsonField "component" (jsonStrList fm.component)),
      some (jsonField "labels" (jsonStrList fm.labels)),
      jsonOptField "assignee" fm.assignee,
      jsonOptField "status" fm.status,
      jsonOptField "status_last_modified" fm.status_last_modified,
      jsonOptField "parent_epic" fm.parent_epic,
      jsonOptField "epic_progress" fm.epic_progress,
      jsonOptField "commit" fm.commit,
      jsonOptField "commit_url" fm.commit_url,
      fm.relates_to.map (fun l => jsonField "relates_to" (jsonStrList l)),
      jsonOptField "due_date" fm.due_date ]
  "\x7b" ++ String.intercalate "," (fields.filterMap id) ++ "\x7d"

/-- FieldMapper.hashTask:
`generateHash(JSON.stringify({frontmatter, body}))`. -/
def hashTask (task : TaskDocument) : String :=
  generateHash
    ("\x7b" ++ jsonField "frontmatter" (serializeFrontmatter task.frontmatter) ++
     "," ++ jsonField "body" (jsonStr task.body) ++ "\x7d")

/-- Lexicographic comparison of character lists by code point — the order
JS's default string comparison realises (JS compares UTF-16 units, which
agrees with code-point order on BMP strings; labels are ASCII in
practice). -/
def charsLeB : List Char → List Char → Bool
  | [], _ => true
  | _ :: _, [] => false
  | a :: as, b :: bs => if a = b then charsLeB as bs else decide (a < b)

/-- The string order `Array.prototype.sort()` sorts by. -/
def jsStrLe (a b : String) : Prop :=
  charsLeB a.data b.data = true

instance jsStrLeDecidable : DecidableRel jsStrLe :=
  fun a b => inferInstanceAs (Decidable (charsLeB a.data b.data = true))

/-- `Array.prototype.sort()` on strings: the result is the unique sorted
permutation for the lexicographic order; the algorithm is modelled by
insertion sort, whose result any correct sort must equal. -/
def jsSortStrings (l : List String) : List String :=
  l.insertionSort jsStrLe

/-- FieldMapper.hashIssue: hash of the
`{title, body, labels: labels.sort(), assignee, state}` serialization. -/
def hashIssue (issue : GitHubIssueData) : String :=
  generateHash
    ("\x7b" ++ jsonField "title" (jsonStr issue.title) ++
     "," ++ jsonField "body" (jsonNullableStr issue.body) ++
     "," ++ jsonField "labels" (jsonStrList (jsSortStrings issue.labels)) ++
     "," ++ jsonField "assignee" (jsonNullableStr issue.assignee) ++
     "," ++ jsonField "state" (jsonStr issue.state) ++ "\x7d")

/-! ## MarkdownParser (`src/lib/markdown-parser.ts`, later revision) -/

/-- Shared body of MarkdownParser.getStatusFromPath and
SyncEngine.getTaskStatus (the two TS functions are textually identical). -/
def getStatusFromPath (filepath : String) : String :=
  if containsSubstr filepath "/backlog/" then "backlog"
  else if containsSubstr filepath "/active/" then "active"
  else if containsSubstr filepath "/completed/" then "completed"
  else "backlog"

/-- MarkdownParser.resolveStatusConflict.  `jsDate` models
`new Date(s).getTime()`; a missing `status_last_modified` becomes
`new Date(0)`, and `folderLastModified > statusTimestamp` decides for the
folder. -/
def resolveStatusConflict (jsDate : String → Int) (task : TaskDocument) : String :=
  let folderStatus := getStatusFromPath task.filepath
  match task.frontmatter.status with
  | none => folderStatus
  | some frontmatterStatus =>
    if frontmatterStatus = folderStatus then frontmatterStatus
    else
      let statusTimestamp :=
        match task.frontmatter.status_last_modified with
        | some s => jsDate s
        | none => 0
      if statusTimestamp < task.folderLastModified then folderStatus
      else frontmatterStatus

/-- The `/^\[#\d+\]\s*/` strip used by MarkdownParser.generateSlug. -/
def stripBracketMarker (cs : List Char) : List Char :=
  match cs with
  | '[' :: '#' :: rest =>
    let digits := rest.takeWhile Char.isDigit
    let afterDigits := rest.drop digits.length
    if digits.length ≠ 0 then
      match afterDigits with
      | ']' :: tail => tail.dropWhile isJsSpace
      | _ => cs
    else cs
  | _ => cs

/-- Characters the slug keeps. -/
def isSlugChar (c : Char) : Bool :=
  ('a' ≤ c && c ≤ 'z') || ('0' ≤ c && c ≤ '9')

/-- `replace(/[^a-z0-9]+/g, '-')`: each maximal run of non-slug characters
becomes one hyphen.  The flag records being inside such a run. -/
def collapseRuns : Bool → List Char → List Char
  | _, [] => []
  | inRun, c :: rest =>
    if isSlugChar c then c :: collapseRuns false rest
    else if inRun then collapseRuns true rest
    else '-' :: collapseRuns true rest

/-- `replace(/^-+|-+$/g, '')`. -/
def trimHyphens (cs : List Char) : List Char :=
  ((cs.dropWhile (· = '-')).reverse.dropWhile (· = '-')).reverse

/-- MarkdownParser.generateSlug. -/
def generateSlug (title : String) : String :=
  String.mk
    ((trimHyphens (collapseRuns false ((stripBracketMarker title.data).map Char.toLower))).take 80)

/-- Filename-regex branch of MarkdownParser.renameTask when no new title is
given: `/^(?:\d+-)?(.+)\.md$/`, keeping the existing slug. -/
def slugFromFilename (filename : String) : Option String :=
  let cs := filename.data
  let afterNumber :=
    let digits := cs.takeWhile Char.isDigit
    if digits.length ≠ 0 then
      match cs.drop digits.length with
      | '-' :: tail => tail
      | _ => cs
    else cs
  if ("md." : String).data.isPrefixOf afterNumber.reverse && 3 < afterNumber.length then
    some (String.mk (afterNumber.take (afterNumber.length - 3)))
  else none

/-- MarkdownParser.renameTask.  `existingPaths` is the set of file paths on
disk (for the target-exists check).  When no new title is supplied and the
old filename does not match the slug regex, the TS re-reads the file's
title; that file read is not modelled and the engine's pull path always
supplies a title, so the fallback uses the fixed `'untitled'` slug. -/
def renameTask (existingPaths : List String) (oldFilepath : String)
    (issueNumber : Int) (newTitle : Option String) : Except String String :=
  let dir := pathDirname oldFilepath
  let oldFilename := pathBasename oldFilepath
  let slug :=
    match newTitle with
    | some t => generateSlug t
    | none =>
      match slugFromFilename oldFilename with
      | some s => s
      | none => generateSlug "untitled"
  let newFilename := pad3 issueNumber ++ "-" ++ slug ++ ".md"
  let newFilepath := pathJoin dir newFilename
  if oldFilepath = newFilepath then Except.ok oldFilepath
  else if existingPaths.contains newFilepath then
    Except.error ("Cannot rename: file already exists at " ++ newFilepath)
  else Except.ok newFilepath

/-- MarkdownParser.moveTask: the returned document and the
`fs.renameSync(from, to)` call it performs, if any. -/
def moveTask (tasksDir : String) (task : TaskDocument) (newStatus : String) :
    TaskDocument × Option (String × String) :=
  let newFilepath := pathJoin (pathJoin tasksDir newStatus) task.filename
  if task.filepath = newFilepath then (task, none)
  else ({ task with filepath := newFilepath }, some (task.filepath, newFilepath))

/-! ## SyncEngine (`src/lib/github-client.ts`, second document) -/

/-- Ambient engine inputs: the current instant (ISO string and epoch ms),
the external ISO-date parser, and the parser's tasks directory. -/
structure EngineCtx where
  now : String
  nowMs : Int
  jsDate : String → Int
  tasksDir : String

/-- The world a sync run reads and writes: the discovered local documents
(the task files on disk), the remote tracker contents, and the persisted
sync state. -/
structure SyncWorld where
  localTasks : List TaskDocument
  remoteIssues : List (Int × GitHubIssueData)
  state : SyncState

/-- Writing a task file back (`parser.writeTask`): replace the entry with
the same path; the file's mtime advances to the current instant. -/
def writeTaskFS (ctx : EngineCtx) (fs : List TaskDocument) (t : TaskDocument) :
    List TaskDocument :=
  fs.map (fun u => if u.filepath = t.filepath then { t with lastModified := ctx.nowMs } else u)

/-- A file rename on the store: the entry at `oldPath` moves to `newPath`
(directory mtimes are not tracked). -/
def renameFS (fs : List TaskDocument) (oldPath newPath : String) : List TaskDocument :=
  fs.map (fun u =>
    if u.filepath = oldPath then
      { u with filepath := newPath, filename := pathBasename newPath }
    else u)

/-- SyncEngine.ensureStatusSync for the tasks parser (which supports
`resolveStatusConflict`): the returned document and whether a write-back
happened.  The TS second branch (status missing but equal to the resolved
status) is unreachable — a missing status never equals the resolved status
string — and is kept for fidelity. -/
def ensureStatusSyncT (ctx : EngineCtx) (task : TaskDocument) : TaskDocument × Bool :=
  let resolvedStatus := resolveStatusConflict ctx.jsDate task
  if task.frontmatter.status ≠ some resolvedStatus then
    ({ task with
        frontmatter :=
          { task.frontmatter with
              status := some resolvedStatus,
              status_last_modified := some ctx.now } }, true)
  else if task.frontmatter.status = none then
    ({ task with
        frontmatter :=
          { task.frontmatter with
              status := some resolvedStatus,
              status_last_modified := some ctx.now } }, true)
  else (task, false)

/-- The server-side effect of `github.updateIssue(n, updates)`: the stored
record takes the pushed fields; `updated_at` (and `closed_at` when closing)
are server timestamps, modelled with the current instant.  The engine only
updates issues it has fetched, so a missing number is left unchanged (the
real API would reject it). -/
def updateIssueRemote (ctx : EngineCtx) (remote : List (Int × GitHubIssueData))
    (n : Int) (upd : GitHubIssueUpdate) : List (Int × GitHubIssueData) :=
  match lookupAssoc remote n with
  | none => remote
  | some old =>
    setAssoc remote n
      { old with
          title := upd.title
          body := some upd.body
          labels := upd.labels
          assignee := upd.assignee
          state := upd.state
          updated_at := ctx.now
          closed_at := if upd.state = "closed" then some ctx.now else old.closed_at }

/-- SyncEngine.pushTask: with an existing issue, map the task and update it
remotely (`ensureLabels` is a label-color upsert with no effect on issue
records and is not modelled); without one, warn and do nothing. -/
def pushTaskFS (ctx : EngineCtx) (remote : List (Int × GitHubIssueData))
    (task : TaskDocument) (existingIssue : Option GitHubIssueData) :
    List (Int × GitHubIssueData) :=
  match existingIssue with
  | some _ => updateIssueRemote ctx remote task.issueNumber (taskToGitHub task)
  | none => remote

/-- SyncEngine.pullIssue: merge the mapped remote data into the existing
task, regenerate the slug from the remote title (a rename failure is caught
and skipped), move the file when the resolved status differs from the
directory-encoded one, and write the result back. -/
def pullIssueFS (ctx : EngineCtx) (fs : List TaskDocument)
    (issue : GitHubIssueData) (existingTask : TaskDocument) : List TaskDocument :=
  let (pfm, body) := githubToTaskWithExisting ctx.now issue existingTask
  let merged := mergePartialFrontmatter existingTask.frontmatter pfm
  let t1 : TaskDocument := { existingTask with frontmatter := merged, body := body }
  let (t2, fs1) :=
    match renameTask (fs.map (·.filepath)) existingTask.filepath
        existingTask.issueNumber (some pfm.title) with
    | Except.ok newPath =>
      ({ t1 with filepath := newPath, filename := pathBasename newPath },
       renameFS fs existingTask.filepath newPath)
    | Except.error _ => (t1, fs)
  let newStatus :=
    if truthy pfm.status then pfm.status.getD ""
    else if truthy existingTask.frontmatter.status then existingTask.frontmatter.status.getD ""
    else "backlog"
  let currentStatus := getStatusFromPath t2.filepath
  if newStatus ≠ currentStatus then
    let (t3, mv) := moveTask ctx.tasksDir t2 newStatus
    let fs2 :=
      match mv with
      | some (fromPath, toPath) => renameFS fs1 fromPath toPath
      | none => fs1
    writeTaskFS ctx fs2 t3
  else writeTaskFS ctx fs1 t2

/-- SyncEngine.detectOrphanedTasks: the numbers of discovered tasks with no
fetched issue. -/
def detectOrphanedTasks (tasks : List TaskDocument)
    (issues : List (Int × GitHubIssueData)) : List Int :=
  tasks.foldr
    (fun t acc => if (lookupAssoc issues t.issueNumber).isNone then t.issueNumber :: acc else acc)
    []

/-- The success-path result of `github.getIssues(nums)` inside a sync run:
a map from each requested number to its remote record, numbers with no
remote record omitted.  (The fallible fetch path is modelled separately
for claim C7.) -/
def fetchIssues (remote : List (Int × GitHubIssueData)) (nums : List Int) :
    List (Int × GitHubIssueData) :=
  nums.foldl
    (fun acc n =>
      match lookupAssoc remote n with
      | some d => setAssoc acc n d
      | none => acc)
    []

/-- The per-item decision of the sync loop, from the stored pair and the
fresh hashes: the §4.3 matrix (a missing stored entry counts as changed on
both sides). -/
inductive SyncAction where
  | skip
  | push
  | pull
  | conflict
deriving DecidableEq

/-- `localChanged`/`remoteChanged` booleans of SyncEngine.sync, folded into
the four-way action. -/
def decideAction (syncInfo : Option SyncInfo) (localHash remoteHash : String) :
    SyncAction :=
  let localChanged : Bool :=
    match syncInfo with
    | none => true
    | some si => si.localHash ≠ localHash
  let remoteChanged : Bool :=
    match syncInfo with
    | none => true
    | some si => si.remoteHash ≠ remoteHash
  if !localChanged && !remoteChanged then SyncAction.skip
  else if localChanged && remoteChanged then SyncAction.conflict
  else if localChanged then SyncAction.push
  else SyncAction.pull

/-- Accumulator of the sync loop: the result being built, the in-memory
state object, and the two stores the loop's effects act on. -/
structure SyncAcc where
  result : SyncResult
  state : SyncState
  fsLocal : List TaskDocument
  remote : List (Int × GitHubIssueData)

/-- The empty SyncResult the loop starts from. -/
def emptyResult : SyncResult :=
  { pushed := [], pulled := [], conflicts := [], skipped := [], errors := [] }

/-- One iteration of the `for (const task of tasks)` loop of
SyncEngine.sync.  `issues` is the map fetched before the loop (lookups use
this snapshot, not the evolving remote store).  Skip and conflict leave the
state entry untouched; push and pull replace it with the hashes of the
*pre-application* task and issue. -/
def processTask (ctx : EngineCtx) (issues : List (Int × GitHubIssueData))
    (acc : SyncAcc) (task : TaskDocument) : SyncAcc :=
  match lookupAssoc issues task.issueNumber with
  | none =>
    { acc with result := { acc.result with skipped := acc.result.skipped ++ [task.issueNumber] } }
  | some issue =>
    let localHash := hashTask task
    let remoteHash := hashIssue issue
    let syncInfo := lookupAssoc acc.state.issues task.issueNumber
    match decideAction syncInfo localHash remoteHash with
    | SyncAction.skip =>
      { acc with result := { acc.result with skipped := acc.result.skipped ++ [task.issueNumber] } }
    | SyncAction.conflict =>
      { acc with
          result :=
            { acc.result with
                conflicts := acc.result.conflicts ++
                  [{ issueNumber := task.issueNumber
                     filename := task.filename
                     localData := task
                     remoteData := issue
                     localModified := task.lastModified
                     remoteModified := issue.updated_at }] } }
    | SyncAction.push =>
      let updatedTask := (ensureStatusSyncT ctx task).1
      let fs1 :=
        if (ensureStatusSyncT ctx task).2 then writeTaskFS ctx acc.fsLocal updatedTask
        else acc.fsLocal
      let remote1 := pushTaskFS ctx acc.remote updatedTask (some issue)
      { result := { acc.result with pushed := acc.result.pushed ++ [task.issueNumber] }
        state :=
          { acc.state with
              issues := setAssoc acc.state.issues task.issueNumber
                { localHash := localHash, remoteHash := remoteHash, lastSyncedAt := ctx.now } }
        fsLocal := fs1
        remote := remote1 }
    | SyncAction.pull =>
      let fs1 := pullIssueFS ctx acc.fsLocal issue task
      { result := { acc.result with pulled := acc.result.pulled ++ [task.issueNumber] }
        state :=
          { acc.state with
              issues := setAssoc acc.state.issues task.issueNumber
                { localHash := localHash, remoteHash := remoteHash, lastSyncedAt := ctx.now } }
        fsLocal := fs1
        remote := acc.remote }

/-- SyncEngine.sync (full bidirectional run, no filter): load the state,
discover the tasks, fetch their issues, run the classification loop, stamp
`lastSync`, and persist.  Returns the SyncResult and the world after the
run.  The orphan warning block only prints `detectOrphanedTasks`'s output;
the filtered single-issue special case is outside this embedding. -/
def sync (ctx : EngineCtx) (w : SyncWorld) : SyncResult × SyncWorld :=
  let tasks := w.localTasks
  let issues := fetchIssues w.remoteIssues (tasks.map TaskDocument.issueNumber)
  let acc0 : SyncAcc :=
    { result := emptyResult, state := w.state, fsLocal := w.localTasks, remote := w.remoteIssues }
  let accF := tasks.foldl (processTask ctx issues) acc0
  (accF.result,
   { localTasks := accF.fsLocal
     remoteIssues := accF.remote
     state := { accF.state with lastSync := ctx.now } })

/-- The 'local' | 'remote' decision SyncEngine.resolveConflict applies. -/
inductive ResolutionChoice where
  | useLocal
  | useRemote
deriving DecidableEq

/-- SyncEngine.resolveConflict: apply one side wholesale, then store the
hash pair of the conflict's captured local document and remote record
(the data as it was when the conflict was detected). -/
def resolveConflict (ctx : EngineCtx) (w : SyncWorld) (conflict : SyncConflict)
    (resolution : ResolutionChoice) : SyncWorld :=
  let w1 :=
    match resolution with
    | ResolutionChoice.useLocal =>
      { w with remoteIssues := pushTaskFS ctx w.remoteIssues conflict.localData (some conflict.remoteData) }
    | ResolutionChoice.useRemote =>
      { w with localTasks := pullIssueFS ctx w.localTasks conflict.remoteData conflict.localData }
  { w1 with
      state :=
        { w1.state with
            issues := setAssoc w1.state.issues conflict.issueNumber
              { localHash := hashTask conflict.localData
                remoteHash := hashIssue conflict.remoteData
                lastSyncedAt := ctx.now } } }

/-! ## GitHubClient fetch path (`src/lib/github-client.ts`, first class) -/

/-- The possible outcomes of one `octokit.issues.get` call: a normal issue,
a pull request (skipped), an HTTP 404, or any other failure. -/
inductive FetchOutcome where
  | found (d : GitHubIssueData)
  | foundPullRequest (d : GitHubIssueData)
  | notFound
  | fetchError (msg : String)
deriving DecidableEq

/-- GitHubClient.getIssue: `null` for pull requests and 404s, the record on
success, and a rethrow of any other failure. -/
def getIssue (fetch : Int → FetchOutcome) (n : Int) :
    Except String (Option GitHubIssueData) :=
  match fetch n with
  | FetchOutcome.found d => Except.ok (some d)
  | FetchOutcome.foundPullRequest _ => Except.ok none
  | FetchOutcome.notFound => Except.ok none
  | FetchOutcome.fetchError msg => Except.error msg

/-- `Promise.all(chunk.map(getIssue))`: all results, or the first rejection
(in list order, standing in for first-in-time). -/
def promiseAllIssues (fetch : Int → FetchOutcome) :
    List Int → Except String (List (Int × Option GitHubIssueData))
  | [] => Except.ok []
  | n :: rest =>
    match getIssue fetch n with
    | Except.error e => Except.error e
    | Except.ok r =>
      match promiseAllIssues fetch rest with
      | Except.error e => Except.error e
      | Except.ok rs => Except.ok ((n, r) :: rs)

/-- GitHubClient.chunkArray, with an explicit fuel bound (the caller's
chunk size is 10; a zero size would not terminate in the TS either). -/
def chunkArrayGo {α : Type} (size : Nat) : Nat → List α → List (List α)
  | 0, _ => []
  | _ + 1, [] => []
  | fuel + 1, l => l.take size :: chunkArrayGo size fuel (l.drop size)

/-- GitHubClient.chunkArray. -/
def chunkArray {α : Type} (l : List α) (size : Nat) : List (List α) :=
  chunkArrayGo size l.length l

/-- The per-chunk step of GitHubClient.getIssues: await the chunk, then
`results.set` each non-null record. -/
def getIssuesChunks (fetch : Int → FetchOutcome) :
    List (List Int) → List (Int × GitHubIssueData) →
    Except String (List (Int × GitHubIssueData))
  | [], acc => Except.ok acc
  | chunk :: rest, acc =>
    match promiseAllIssues fetch chunk with
    | Except.error e => Except.error e
    | Except.ok results =>
      getIssuesChunks fetch rest
        (results.foldl
          (fun m pr =>
            match pr.2 with
            | some d => setAssoc m pr.1 d
            | none => m)
          acc)

/-- GitHubClient.getIssues: fetch in chunks of 10; any rethrown per-item
failure rejects the whole call. -/
def getIssues (fetch : Int → FetchOutcome) (issueNumbers : List Int) :
    Except String (List (Int × GitHubIssueData)) :=
  getIssuesChunks fetch (chunkArray issueNumbers 10) []

/-! ## SyncEngine.loadState (`src/lib/github-client.ts`) -/

/-- The fresh state loadState falls back to:
`{lastSync: new Date(0).toISOString(), issues: {}}`. -/
def freshSyncState : SyncState :=
  { lastSync := "1970-01-01T00:00:00.000Z", issues := [] }

/-- SyncEngine.loadState over the persisted file: `none` is a missing file,
`some content` its text; `parseJson` models `JSON.parse` restricted to the
SyncState shape, returning `none` on a parse failure (the TS `catch`).
Total by construction: every filesystem state yields a SyncState. -/
def loadState (parseJson : String → Option SyncState) (file : Option String) :
    SyncState :=
  match file with
  | none => freshSyncState
  | some content =>
    match parseJson content with
    | some st => st
    | none => freshSyncState

/-! ## Concrete data for counterexamples and witnesses -/

/-- A fixed engine context (current instant, trivial date parser). -/
def cexCtx : EngineCtx :=
  { now := "2025-01-02T00:00:00.000Z", nowMs := 1735776000000,
    jsDate := fun _ => 0, tasksDir := "docs/tasks" }

/-- A second context, standing for the later instant of a second run. -/
def cexCtx2 : EngineCtx :=
  { now := "2025-01-03T00:00:00.000Z", nowMs := 1735862400000,
    jsDate := fun _ => 0, tasksDir := "docs/tasks" }

/-- A minimal valid frontmatter. -/
def fmSmall : TaskFrontmatter :=
  { created_utc := "c", reporter := "r", title := "A", severity := "P2",
    priority := "high", component := [], labels := [], status := some "active" }

/-- Task file #5 in the active directory. -/
def taskA5 : TaskDocument :=
  { issueNumber := 5, filename := "005-a.md", filepath := "docs/tasks/active/005-a.md",
    frontmatter := fmSmall, body := "b", lastModified := 100, folderLastModified := 50 }

/-- A second file carrying the same issue number 5 with identical content
(a duplicate, as the engine's orphan handling explicitly anticipates). -/
def taskB5 : TaskDocument :=
  { taskA5 with filename := "005-b.md", filepath := "docs/tasks/backlog/005-b.md" }

/-- The remote record for issue 5. -/
def issue5 : GitHubIssueData :=
  { number := 5, title := "A", body := some "x", state := "open", labels := [],
    assignee := none, created_at := "c", updated_at := "u", closed_at := none }

/-- World for the C1 counterexample: two local files share number 5, the
stored local hash is stale, the stored remote hash is current. -/
def worldDup : SyncWorld :=
  { localTasks := [taskA5, taskB5],
    remoteIssues := [(5, issue5)],
    state := { lastSync := "t0",
               issues := [(5, { localHash := "stale", remoteHash := hashIssue issue5,
                                lastSyncedAt := "t0" })] } }

/-- World for the C2 counterexample: one task whose stored pair matches
neither fresh hash, so every run reports a conflict. -/
def worldConf : SyncWorld :=
  { localTasks := [taskA5],
    remoteIssues := [(5, issue5)],
    state := { lastSync := "t0",
               issues := [(5, { localHash := "xx", remoteHash := "yy",
                                lastSyncedAt := "t0" })] } }

/-- World for the C2 witness: the stored pair matches both fresh hashes,
so the first run skips everything. -/
def worldSkip : SyncWorld :=
  { localTasks := [taskA5],
    remoteIssues := [(5, issue5)],
    state := { lastSync := "t0",
               issues := [(5, { localHash := hashTask taskA5,
                                remoteHash := hashIssue issue5,
                                lastSyncedAt := "t0" })] } }

/-- A conflict record over task 5 (both sides changed). -/
def conflict5 : SyncConflict :=
  { issueNumber := 5, filename := "005-a.md", localData := taskA5,
    remoteData := issue5, localModified := 100, remoteModified := "u" }

/-- Documents differing only in a `[#001]` title marker, for C5. -/
def taskPrefixed : TaskDocument :=
  { taskA5 with frontmatter := { fmSmall with title := "[#001] Fix X" } }

/-- The same document with the marker removed. -/
def taskPlain : TaskDocument :=
  { taskA5 with frontmatter := { fmSmall with title := "Fix X" } }

/-- C6 counterexample input: frontmatter says backlog, the directory says
active, `status_last_modified` is absent, and the directory mtime is the
epoch. -/
def taskEpochDir : TaskDocument :=
  { issueNumber := 7, filename := "007-x.md", filepath := "docs/tasks/active/007-x.md",
    frontmatter := { fmSmall with status := some "backlog", status_last_modified := none },
    body := "", lastModified := 0, folderLastModified := 0 }

/-- C6 witness input: frontmatter says backlog with a stamped time, the
directory says active with a later mtime. -/
def taskStale : TaskDocument :=
  { issueNumber := 8, filename := "008-y.md", filepath := "docs/tasks/active/008-y.md",
    frontmatter :=
      { fmSmall with status := some "backlog", status_last_modified := some "t5" },
    body := "", lastModified := 0, folderLastModified := 10 }

/-- Context whose date parser stamps `status_last_modified` strings at 5ms
(earlier than `taskStale`'s directory mtime). -/
def ctxDate5 : EngineCtx :=
  { now := "2025-01-02T00:00:00.000Z", nowMs := 0,
    jsDate := fun _ => 5, tasksDir := "docs/tasks" }

/-- A fetch oracle that fails every call with a non-404 error. -/
def errFetch : Int → FetchOutcome :=
  fun _ => FetchOutcome.fetchError "boom"

/-- Fetch oracle for the C7 witness: issue 1 exists, issue 2 is a 404. -/
def fetch7 : Int → FetchOutcome :=
  fun n => if n = 1 then FetchOutcome.found issue5 else FetchOutcome.notFound

/-- Remote record with labels in one order, for C8. -/
def issueLabels : GitHubIssueData :=
  { issue5 with labels := ["bug", "high"] }

/-- The same record with the labels transposed. -/
def issueLabelsSwapped : GitHubIssueData :=
  { issue5 with labels := ["high", "bug"] }

/-! ## Derived notions used in the theorem statements -/

/-- The issue numbers carried by a result's conflict records. -/
def conflictNums (r : SyncResult) : List Int :=
  r.conflicts.map SyncConflict.issueNumber

/-- The §4.3 "both sides unchanged" condition against a stored pair: a
persisted entry exists and its local hash matches the fresh one. -/
def localUnchanged (stIssues : List (Int × SyncInfo)) (t : TaskDocument) : Prop :=
  ∃ si, lookupAssoc stIssues t.issueNumber = some si ∧ si.localHash = hashTask t

/-- Remote-side counterpart of `localUnchanged`. -/
def remoteUnchanged (stIssues : List (Int × SyncInfo)) (t : TaskDocument)
    (issue : GitHubIssueData) : Prop :=
  ∃ si, lookupAssoc stIssues t.issueNumber = some si ∧ si.remoteHash = hashIssue issue

/-- A task the sync loop leaves the world unchanged for: its number has no
fetched issue (orphan) or the stored pair matches both fresh hashes. -/
def skipCond (issues : List (Int × GitHubIssueData))
    (stIssues : List (Int × SyncInfo)) (t : TaskDocument) : Prop :=
  match lookupAssoc issues t.issueNumber with
  | none => True
  | some i =>
    decideAction (lookupAssoc stIssues t.issueNumber) (hashTask t) (hashIssue i) =
      SyncAction.skip

/-- Recogniser for the non-404 failure outcome of a fetch. -/
def isFetchFailure : FetchOutcome → Bool
  | FetchOutcome.fetchError _ => true
  | _ => false

/-- The record a successful non-PR fetch returns, if any. -/
def fetchRecord : FetchOutcome → Option GitHubIssueData
  | FetchOutcome.found d => some d
  | _ => none

/-- A local file numbered 9 with no remote counterpart. -/
def taskOrphan9 : TaskDocument :=
  { taskA5 with
      issueNumber := 9
      filename := "009-z.md"
      filepath := "docs/tasks/backlog/009-z.md" }

/-- World for the C4 witness: one synced task and one orphan. -/
def worldOrphan : SyncWorld :=
  { localTasks := [taskA5, taskOrphan9],
    remoteIssues := [(5, issue5)],
    state := worldSkip.state }

/-- Sequential reference model of the chunked fetch: process the numbers
one by one, aborting at the first rethrown failure.  Used only to prove
facts about `getIssues` (the chunked fold is shown equal to it). -/
def seqGetIssues (fetch : Int → FetchOutcome) :
    List Int → List (Int × GitHubIssueData) →
    Except String (List (Int × GitHubIssueData))
  | [], acc => Except.ok acc
  | n :: rest, acc =>
    match getIssue fetch n with
    | Except.error e => Except.error e
    | Except.ok (some d) => seqGetIssues fetch rest (setAssoc acc n d)
    | Except.ok none => seqGetIssues fetch rest acc

/-! # Theorems

First the supporting lemmas (shared infrastructure), then one theorem per
claim of the specification, each preceded by a doc comment naming the
claim. -/

/-! ## Fidelity of the unsigned hash loop -/

theorem hashStepU_lt (h c : Nat) : hashStepU h c < 4294967296 :=
  Nat.mod_lt _ (by decide)

theorem hashStep_signedOfU (h c : Nat) (_hlt : h < 4294967296) :
    hashStep (signedOfU h) c = signedOfU (hashStepU h c) := by
  simp only [hashStep, toInt32, hashStepU, signedOfU]
  split_ifs <;> push_cast <;> omega

theorem foldl_hashStep_signedOfU :
    ∀ (l : List Nat) (h : Nat), h < 4294967296 →
      l.foldl hashStep (signedOfU h) = signedOfU (l.foldl hashStepU h)
  | [], _, _ => rfl
  | c :: l, h, hlt => by
    rw [List.foldl_cons, List.foldl_cons, hashStep_signedOfU h c hlt]
    exact foldl_hashStep_signedOfU l (hashStepU h c) (hashStepU_lt h c)

/-- The unsigned-residue loop inside `generateHash` computes exactly the
fold of the literal signed-32-bit `hashStep` of the source. -/
theorem generateHash_models_int32_loop (content : String) :
    generateHash content = intToBase36 ((utf16Units content).foldl hashStep 0) := by
  have h0 : signedOfU 0 = 0 := rfl
  rw [generateHash, ← foldl_hashStep_signedOfU (utf16Units content) 0 (by decide), h0]

/-! ## Association-list lemmas -/

theorem lookupAssoc_setAssoc_self {α : Type} (l : List (Int × α)) (n : Int) (v : α) :
    lookupAssoc (setAssoc l n v) n = some v := by
  induction l with
  | nil => simp [setAssoc, lookupAssoc]
  | cons p rest ih =>
    by_cases h : p.1 = n
    · simp [setAssoc, h, lookupAssoc]
    · simp [setAssoc, h, lookupAssoc, ih]

theorem lookupAssoc_setAssoc_ne {α : Type} (l : List (Int × α)) (n m : Int) (v : α)
    (hne : m ≠ n) : lookupAssoc (setAssoc l n v) m = lookupAssoc l m := by
  induction l with
  | nil =>
    have hnm : ¬(n = m) := fun hh => hne hh.symm
    simp only [setAssoc, lookupAssoc, if_neg hnm]
  | cons p rest ih =>
    by_cases h : p.1 = n
    · have hnm : ¬(n = m) := fun hh => hne hh.symm
      have hpm : ¬(p.1 = m) := by rw [h]; exact hnm
      simp only [setAssoc, if_pos h, lookupAssoc, if_neg hnm, if_neg hpm]
    · by_cases h2 : p.1 = m
      · simp only [setAssoc, if_neg h, lookupAssoc, if_pos h2]
      · simp only [setAssoc, if_neg h, lookupAssoc, if_neg h2, ih]

/-! ## decideAction characterisation -/

theorem decideAction_skip_iff (si : Option SyncInfo) (lh rh : String) :
    decideAction si lh rh = SyncAction.skip ↔
      (∃ s, si = some s ∧ s.localHash = lh) ∧ (∃ s, si = some s ∧ s.remoteHash = rh) := by
  cases si with
  | none => simp [decideAction]
  | some s =>
    by_cases h1 : s.localHash = lh <;> by_cases h2 : s.remoteHash = rh <;>
      simp [decideAction, h1, h2]

theorem decideAction_push_iff (si : Option SyncInfo) (lh rh : String) :
    decideAction si lh rh = SyncAction.push ↔
      ¬(∃ s, si = some s ∧ s.localHash = lh) ∧ (∃ s, si = some s ∧ s.remoteHash = rh) := by
  cases si with
  | none => simp [decideAction]
  | some s =>
    by_cases h1 : s.localHash = lh <;> by_cases h2 : s.remoteHash = rh <;>
      simp [decideAction, h1, h2]

theorem decideAction_pull_iff (si : Option SyncInfo) (lh rh : String) :
    decideAction si lh rh = SyncAction.pull ↔
      (∃ s, si = some s ∧ s.localHash = lh) ∧ ¬(∃ s, si = some s ∧ s.remoteHash = rh) := by
  cases si with
  | none => simp [decideAction]
  | some s =>
    by_cases h1 : s.localHash = lh <;> by_cases h2 : s.remoteHash = rh <;>
      simp [decideAction, h1, h2]

theorem decideAction_conflict_iff (si : Option SyncInfo) (lh rh : String) :
    decideAction si lh rh = SyncAction.conflict ↔
      ¬(∃ s, si = some s ∧ s.localHash = lh) ∧ ¬(∃ s, si = some s ∧ s.remoteHash = rh) := by
  cases si with
  | none => simp [decideAction]
  | some s =>
    by_cases h1 : s.localHash = lh <;> by_cases h2 : s.remoteHash = rh <;>
      simp [decideAction, h1, h2]

/-! ## processTask branch shapes -/

theorem processTask_of_none (ctx : EngineCtx) (issues : List (Int × GitHubIssueData))
    (acc : SyncAcc) (t : TaskDocument) (h : lookupAssoc issues t.issueNumber = none) :
    processTask ctx issues acc t =
      { acc with result := { acc.result with skipped := acc.result.skipped ++ [t.issueNumber] } } := by
  simp only [processTask, h]

theorem processTask_of_skip (ctx : EngineCtx) (issues : List (Int × GitHubIssueData))
    (acc : SyncAcc) (t : TaskDocument) (i : GitHubIssueData)
    (h : lookupAssoc issues t.issueNumber = some i)
    (ha : decideAction (lookupAssoc acc.state.issues t.issueNumber) (hashTask t) (hashIssue i) =
      SyncAction.skip) :
    processTask ctx issues acc t =
      { acc with result := { acc.result with skipped := acc.result.skipped ++ [t.issueNumber] } } := by
  simp only [processTask, h, ha]

theorem processTask_of_conflict (ctx : EngineCtx) (issues : List (Int × GitHubIssueData))
    (acc : SyncAcc) (t : TaskDocument) (i : GitHubIssueData)
    (h : lookupAssoc issues t.issueNumber = some i)
    (ha : decideAction (lookupAssoc acc.state.issues t.issueNumber) (hashTask t) (hashIssue i) =
      SyncAction.conflict) :
    processTask ctx issues acc t =
      { acc with
          result :=
            { acc.result with
                conflicts := acc.result.conflicts ++
                  [{ issueNumber := t.issueNumber, filename := t.filename, localData := t,
                     remoteData := i, localModified := t.lastModified,
                     remoteModified := i.updated_at }] } } := by
  simp only [processTask, h, ha]

theorem processTask_of_push (ctx : EngineCtx) (issues : List (Int × GitHubIssueData))
    (acc : SyncAcc) (t : TaskDocument) (i : GitHubIssueData)
    (h : lookupAssoc issues t.issueNumber = some i)
    (ha : decideAction (lookupAssoc acc.state.issues t.issueNumber) (hashTask t) (hashIssue i) =
      SyncAction.push) :
    processTask ctx issues acc t =
      { result := { acc.result with pushed := acc.result.pushed ++ [t.issueNumber] }
        state :=
          { acc.state with
              issues := setAssoc acc.state.issues t.issueNumber
                { localHash := hashTask t, remoteHash := hashIssue i, lastSyncedAt := ctx.now } }
        fsLocal :=
          if (ensureStatusSyncT ctx t).2 then
            writeTaskFS ctx acc.fsLocal (ensureStatusSyncT ctx t).1
          else acc.fsLocal
        remote := pushTaskFS ctx acc.remote (ensureStatusSyncT ctx t).1 (some i) } := by
  simp only [processTask, h, ha]

theorem processTask_of_pull (ctx : EngineCtx) (issues : List (Int × GitHubIssueData))
    (acc : SyncAcc) (t : TaskDocument) (i : GitHubIssueData)
    (h : lookupAssoc issues t.issueNumber = some i)
    (ha : decideAction (lookupAssoc acc.state.issues t.issueNumber) (hashTask t) (hashIssue i) =
      SyncAction.pull) :
    processTask ctx issues acc t =
      { result := { acc.result with pulled := acc.result.pulled ++ [t.issueNumber] }
        state :=
          { acc.state with
              issues := setAssoc acc.state.issues t.issueNumber
                { localHash := hashTask t, remoteHash := hashIssue i, lastSyncedAt := ctx.now } }
        fsLocal := pullIssueFS ctx acc.fsLocal i t
        remote := acc.remote } := by
  simp only [processTask, h, ha]

/-! ## Per-number preservation across the loop -/

theorem processTask_untouched (ctx : EngineCtx) (issues : List (Int × GitHubIssueData))
    (acc : SyncAcc) (t : TaskDocument) (n : Int) (hn : t.issueNumber ≠ n) :
    lookupAssoc (processTask ctx issues acc t).state.issues n = lookupAssoc acc.state.issues n ∧
    (n ∈ (processTask ctx issues acc t).result.pushed ↔ n ∈ acc.result.pushed) ∧
    (n ∈ (processTask ctx issues acc t).result.pulled ↔ n ∈ acc.result.pulled) ∧
    (n ∈ (processTask ctx issues acc t).result.skipped ↔ n ∈ acc.result.skipped) ∧
    (n ∈ conflictNums (processTask ctx issues acc t).result ↔ n ∈ conflictNums acc.result) := by
  have hnn : n ≠ t.issueNumber := Ne.symm hn
  rcases hl : lookupAssoc issues t.issueNumber with _ | i
  · rw [processTask_of_none ctx issues acc t hl]
    exact ⟨rfl, Iff.rfl, Iff.rfl, by simp [List.mem_append, hnn], Iff.rfl⟩
  · rcases ha : decideAction (lookupAssoc acc.state.issues t.issueNumber) (hashTask t)
        (hashIssue i) with _ | _ | _ | _
    · rw [processTask_of_skip ctx issues acc t i hl ha]
      exact ⟨rfl, Iff.rfl, Iff.rfl, by simp [List.mem_append, hnn], Iff.rfl⟩
    · rw [processTask_of_push ctx issues acc t i hl ha]
      exact ⟨lookupAssoc_setAssoc_ne _ _ _ _ hnn, by simp [List.mem_append, hnn], Iff.rfl,
        Iff.rfl, Iff.rfl⟩
    · rw [processTask_of_pull ctx issues acc t i hl ha]
      exact ⟨lookupAssoc_setAssoc_ne _ _ _ _ hnn, Iff.rfl, by simp [List.mem_append, hnn],
        Iff.rfl, Iff.rfl⟩
    · rw [processTask_of_conflict ctx issues acc t i hl ha]
      refine ⟨rfl, Iff.rfl, Iff.rfl, Iff.rfl, ?_⟩
      simp [conflictNums, List.mem_append, hnn]

theorem foldl_processTask_untouched (ctx : EngineCtx) (issues : List (Int × GitHubIssueData)) :
    ∀ (ts : List TaskDocument) (acc : SyncAcc) (n : Int), (∀ t ∈ ts, t.issueNumber ≠ n) →
      lookupAssoc (ts.foldl (processTask ctx issues) acc).state.issues n =
        lookupAssoc acc.state.issues n ∧
      (n ∈ (ts.foldl (processTask ctx issues) acc).result.pushed ↔ n ∈ acc.result.pushed) ∧
      (n ∈ (ts.foldl (processTask ctx issues) acc).result.pulled ↔ n ∈ acc.result.pulled) ∧
      (n ∈ (ts.foldl (processTask ctx issues) acc).result.skipped ↔ n ∈ acc.result.skipped) ∧
      (n ∈ conflictNums (ts.foldl (processTask ctx issues) acc).result ↔
        n ∈ conflictNums acc.result)
  | [], _, _, _ => ⟨rfl, Iff.rfl, Iff.rfl, Iff.rfl, Iff.rfl⟩
  | t :: ts, acc, n, hne => by
    have hth : t.issueNumber ≠ n := hne t (List.mem_cons_self t ts)
    have hrest : ∀ u ∈ ts, u.issueNumber ≠ n := fun u hu => hne u (List.mem_cons_of_mem t hu)
    have hstep := processTask_untouched ctx issues acc t n hth
    have ih := foldl_processTask_untouched ctx issues ts (processTask ctx issues acc t) n hrest
    rw [List.foldl_cons]
    exact ⟨ih.1.trans hstep.1, ih.2.1.trans hstep.2.1, ih.2.2.1.trans hstep.2.2.1,
      ih.2.2.2.1.trans hstep.2.2.2.1, ih.2.2.2.2.trans hstep.2.2.2.2⟩

/-! ## C1: the classification matrix -/

theorem nodup_split_ne {l₁ l₂ : List TaskDocument} {t : TaskDocument}
    (hnodup : ((l₁ ++ t :: l₂).map TaskDocument.issueNumber).Nodup) :
    (∀ u ∈ l₁, u.issueNumber ≠ t.issueNumber) ∧
    (∀ u ∈ l₂, u.issueNumber ≠ t.issueNumber) := by
  rw [List.map_append, List.map_cons, List.nodup_append] at hnodup
  obtain ⟨-, hcons, hdisj⟩ := hnodup
  constructor
  · intro u hu he
    exact hdisj (List.mem_map_of_mem TaskDocument.issueNumber hu)
      (by rw [he]; exact List.mem_cons_self _ _)
  · intro u hu he
    exact (List.nodup_cons.mp hcons).1 (he ▸ List.mem_map_of_mem TaskDocument.issueNumber hu)

/-- C1 (amended): with pairwise-distinct issue numbers among the discovered
documents, for every document with a fetched remote record, membership in
each of the four result sets is exactly the §4.3 matrix entry computed
against the persisted pair (a number with no persisted entry counts as
changed on both sides), so each number lands in exactly one set. -/
theorem sync_classification_matrix (ctx : EngineCtx) (w : SyncWorld) (t : TaskDocument)
    (issue : GitHubIssueData)
    (hnodup : (w.localTasks.map TaskDocument.issueNumber).Nodup)
    (hmem : t ∈ w.localTasks)
    (hfetched :
      lookupAssoc (fetchIssues w.remoteIssues (w.localTasks.map TaskDocument.issueNumber))
        t.issueNumber = some issue) :
    (t.issueNumber ∈ (sync ctx w).1.skipped ↔
        localUnchanged w.state.issues t ∧ remoteUnchanged w.state.issues t issue) ∧
    (t.issueNumber ∈ (sync ctx w).1.pushed ↔
        ¬localUnchanged w.state.issues t ∧ remoteUnchanged w.state.issues t issue) ∧
    (t.issueNumber ∈ (sync ctx w).1.pulled ↔
        localUnchanged w.state.issues t ∧ ¬remoteUnchanged w.state.issues t issue) ∧
    (t.issueNumber ∈ conflictNums (sync ctx w).1 ↔
        ¬localUnchanged w.state.issues t ∧ ¬remoteUnchanged w.state.issues t issue) := by
  obtain ⟨l₁, l₂, hsplit⟩ := List.append_of_mem hmem
  have hne := nodup_split_ne (hsplit ▸ hnodup)
  simp only [sync]
  set issues := fetchIssues w.remoteIssues (List.map TaskDocument.issueNumber w.localTasks)
    with hIdef
  set acc0 : SyncAcc :=
    { result := emptyResult, state := w.state, fsLocal := w.localTasks,
      remote := w.remoteIssues } with hacc0
  rw [show w.localTasks.foldl (processTask ctx issues) acc0 =
        l₂.foldl (processTask ctx issues)
          (processTask ctx issues (l₁.foldl (processTask ctx issues) acc0) t) by
      rw [hsplit, List.foldl_append, List.foldl_cons]]
  set acc1 := l₁.foldl (processTask ctx issues) acc0 with hacc1
  have facts1 := foldl_processTask_untouched ctx issues l₁ acc0 t.issueNumber hne.1
  have hstate1 : lookupAssoc acc1.state.issues t.issueNumber =
      lookupAssoc w.state.issues t.issueNumber := facts1.1
  have key :
      (t.issueNumber ∈ (l₂.foldl (processTask ctx issues)
          (processTask ctx issues acc1 t)).result.skipped ↔
        decideAction (lookupAssoc w.state.issues t.issueNumber) (hashTask t) (hashIssue issue) =
          SyncAction.skip) ∧
      (t.issueNumber ∈ (l₂.foldl (processTask ctx issues)
          (processTask ctx issues acc1 t)).result.pushed ↔
        decideAction (lookupAssoc w.state.issues t.issueNumber) (hashTask t) (hashIssue issue) =
          SyncAction.push) ∧
      (t.issueNumber ∈ (l₂.foldl (processTask ctx issues)
          (processTask ctx issues acc1 t)).result.pulled ↔
        decideAction (lookupAssoc w.state.issues t.issueNumber) (hashTask t) (hashIssue issue) =
          SyncAction.pull) ∧
      (t.issueNumber ∈ conflictNums (l₂.foldl (processTask ctx issues)
          (processTask ctx issues acc1 t)).result ↔
        decideAction (lookupAssoc w.state.issues t.issueNumber) (hashTask t) (hashIssue issue) =
          SyncAction.conflict) := by
    have facts2 := foldl_processTask_untouched ctx issues l₂
      (processTask ctx issues acc1 t) t.issueNumber hne.2
    have hmem1 : (t.issueNumber ∈ acc1.result.pushed ↔ False) ∧
        (t.issueNumber ∈ acc1.result.pulled ↔ False) ∧
        (t.issueNumber ∈ acc1.result.skipped ↔ False) ∧
        (t.issueNumber ∈ conflictNums acc1.result ↔ False) := by
      refine ⟨facts1.2.1.trans ?_, facts1.2.2.1.trans ?_, facts1.2.2.2.1.trans ?_,
        facts1.2.2.2.2.trans ?_⟩ <;>
        simp [hacc0, emptyResult, conflictNums]
    have hnc : ∀ x ∈ acc1.result.conflicts, ¬x.issueNumber = t.issueNumber := by
      intro x hx he
      exact hmem1.2.2.2.mp (List.mem_map.mpr ⟨x, hx, he⟩)
    rcases ha : decideAction (lookupAssoc w.state.issues t.issueNumber) (hashTask t)
        (hashIssue issue) with _ | _ | _ | _
    · rw [processTask_of_skip ctx issues acc1 t issue hfetched (hstate1 ▸ ha)] at facts2 ⊢
      refine ⟨facts2.2.2.2.1.trans ?_, facts2.2.1.trans ?_, facts2.2.2.1.trans ?_,
        facts2.2.2.2.2.trans ?_⟩ <;>
        simp [List.mem_append, hmem1.1, hmem1.2.1, hmem1.2.2.1, conflictNums, hnc] <;>
        exact hnc
    · rw [processTask_of_push ctx issues acc1 t issue hfetched (hstate1 ▸ ha)] at facts2 ⊢
      refine ⟨facts2.2.2.2.1.trans ?_, facts2.2.1.trans ?_, facts2.2.2.1.trans ?_,
        facts2.2.2.2.2.trans ?_⟩ <;>
        simp [List.mem_append, hmem1.1, hmem1.2.1, hmem1.2.2.1, conflictNums, hnc] <;>
        exact hnc
    · rw [processTask_of_pull ctx issues acc1 t issue hfetched (hstate1 ▸ ha)] at facts2 ⊢
      refine ⟨facts2.2.2.2.1.trans ?_, facts2.2.1.trans ?_, facts2.2.2.1.trans ?_,
        facts2.2.2.2.2.trans ?_⟩ <;>
        simp [List.mem_append, hmem1.1, hmem1.2.1, hmem1.2.2.1, conflictNums, hnc] <;>
        exact hnc
    · rw [processTask_of_conflict ctx issues acc1 t issue hfetched (hstate1 ▸ ha)] at facts2 ⊢
      refine ⟨facts2.2.2.2.1.trans ?_, facts2.2.1.trans ?_, facts2.2.2.1.trans ?_,
        facts2.2.2.2.2.trans ?_⟩ <;>
        simp [List.mem_append, hmem1.1, hmem1.2.1, hmem1.2.2.1, conflictNums, hnc]
  refine ⟨key.1.trans ?_, key.2.1.trans ?_, key.2.2.1.trans ?_, key.2.2.2.trans ?_⟩
  · rw [decideAction_skip_iff]; rfl
  · rw [decideAction_push_iff]; rfl
  · rw [decideAction_pull_iff]; rfl
  · rw [decideAction_conflict_iff]; rfl

/-! ## C2: behaviour of a run that classifies everything as skip -/

theorem processTask_result_grow (ctx : EngineCtx) (issues : List (Int × GitHubIssueData))
    (acc : SyncAcc) (t : TaskDocument) :
    ∃ dp dl dc ds,
      (processTask ctx issues acc t).result.pushed = acc.result.pushed ++ dp ∧
      (processTask ctx issues acc t).result.pulled = acc.result.pulled ++ dl ∧
      (processTask ctx issues acc t).result.conflicts = acc.result.conflicts ++ dc ∧
      (processTask ctx issues acc t).result.skipped = acc.result.skipped ++ ds := by
  rcases hl : lookupAssoc issues t.issueNumber with _ | i
  · rw [processTask_of_none ctx issues acc t hl]
    exact ⟨[], [], [], [t.issueNumber], by simp⟩
  · rcases ha : decideAction (lookupAssoc acc.state.issues t.issueNumber) (hashTask t)
        (hashIssue i) with _ | _ | _ | _
    · rw [processTask_of_skip ctx issues acc t i hl ha]
      exact ⟨[], [], [], [t.issueNumber], by simp⟩
    · rw [processTask_of_push ctx issues acc t i hl ha]
      exact ⟨[t.issueNumber], [], [], [], by simp⟩
    · rw [processTask_of_pull ctx issues acc t i hl ha]
      exact ⟨[], [t.issueNumber], [], [], by simp⟩
    · rw [processTask_of_conflict ctx issues acc t i hl ha]
      exact ⟨[], [], [⟨t.issueNumber, t.filename, t, i, t.lastModified, i.updated_at⟩],
        [], by simp⟩

theorem foldl_processTask_result_grow (ctx : EngineCtx)
    (issues : List (Int × GitHubIssueData)) :
    ∀ (ts : List TaskDocument) (acc : SyncAcc),
      ∃ dp dl dc ds,
        (ts.foldl (processTask ctx issues) acc).result.pushed = acc.result.pushed ++ dp ∧
        (ts.foldl (processTask ctx issues) acc).result.pulled = acc.result.pulled ++ dl ∧
        (ts.foldl (processTask ctx issues) acc).result.conflicts = acc.result.conflicts ++ dc ∧
        (ts.foldl (processTask ctx issues) acc).result.skipped = acc.result.skipped ++ ds
  | [], acc => ⟨[], [], [], [], by simp⟩
  | t :: ts, acc => by
    obtain ⟨dp0, dl0, dc0, ds0, h0⟩ := processTask_result_grow ctx issues acc t
    obtain ⟨dp, dl, dc, ds, h⟩ :=
      foldl_processTask_result_grow ctx issues ts (processTask ctx issues acc t)
    rw [List.foldl_cons]
    exact ⟨dp0 ++ dp, dl0 ++ dl, dc0 ++ dc, ds0 ++ ds,
      by rw [h.1, h0.1, List.append_assoc],
      by rw [h.2.1, h0.2.1, List.append_assoc],
      by rw [h.2.2.1, h0.2.2.1, List.append_assoc],
      by rw [h.2.2.2, h0.2.2.2, List.append_assoc]⟩

theorem foldl_processTask_clean_parts (ctx : EngineCtx)
    (issues : List (Int × GitHubIssueData)) :
    ∀ (ts : List TaskDocument) (acc : SyncAcc),
      (ts.foldl (processTask ctx issues) acc).result.pushed = acc.result.pushed →
      (ts.foldl (processTask ctx issues) acc).result.pulled = acc.result.pulled →
      (ts.foldl (processTask ctx issues) acc).result.conflicts = acc.result.conflicts →
      (ts.foldl (processTask ctx issues) acc).state = acc.state ∧
      (ts.foldl (processTask ctx issues) acc).fsLocal = acc.fsLocal ∧
      (ts.foldl (processTask ctx issues) acc).remote = acc.remote ∧
      ∀ t ∈ ts, skipCond issues acc.state.issues t
  | [], acc => fun _ _ _ => ⟨rfl, rfl, rfl, by simp⟩
  | t :: ts, acc => by
    intro hp hl hc
    rw [List.foldl_cons] at hp hl hc ⊢
    obtain ⟨dp, dl, dc, ds, hg⟩ :=
      foldl_processTask_result_grow ctx issues ts (processTask ctx issues acc t)
    rcases hlk : lookupAssoc issues t.issueNumber with _ | i
    · rw [processTask_of_none ctx issues acc t hlk] at hp hl hc hg ⊢
      have ih := foldl_processTask_clean_parts ctx issues ts
        { acc with result :=
            { acc.result with skipped := acc.result.skipped ++ [t.issueNumber] } }
        hp hl hc
      refine ⟨ih.1, ih.2.1, ih.2.2.1, ?_⟩
      intro u hu
      rcases List.mem_cons.mp hu with hu | hu
      · subst hu
        simp [skipCond, hlk]
      · exact ih.2.2.2 u hu
    · rcases ha : decideAction (lookupAssoc acc.state.issues t.issueNumber) (hashTask t)
          (hashIssue i) with _ | _ | _ | _
      · rw [processTask_of_skip ctx issues acc t i hlk ha] at hp hl hc hg ⊢
        have ih := foldl_processTask_clean_parts ctx issues ts
          { acc with result :=
              { acc.result with skipped := acc.result.skipped ++ [t.issueNumber] } }
          hp hl hc
        refine ⟨ih.1, ih.2.1, ih.2.2.1, ?_⟩
        intro u hu
        rcases List.mem_cons.mp hu with hu | hu
        · subst hu
          simp [skipCond, hlk, ha]
        · exact ih.2.2.2 u hu
      · rw [processTask_of_push ctx issues acc t i hlk ha] at hp hg
        exfalso
        rw [hg.1] at hp
        have := congrArg List.length hp
        simp [List.length_append] at this
      · rw [processTask_of_pull ctx issues acc t i hlk ha] at hl hg
        exfalso
        rw [hg.2.1] at hl
        have := congrArg List.length hl
        simp [List.length_append] at this
      · rw [processTask_of_conflict ctx issues acc t i hlk ha] at hc hg
        exfalso
        rw [hg.2.2.1] at hc
        have := congrArg List.length hc
        simp [List.length_append] at this

theorem foldl_processTask_of_skipcond (ctx : EngineCtx)
    (issues : List (Int × GitHubIssueData)) :
    ∀ (ts : List TaskDocument) (acc : SyncAcc),
      (∀ t ∈ ts, skipCond issues acc.state.issues t) →
      (ts.foldl (processTask ctx issues) acc).result.pushed = acc.result.pushed ∧
      (ts.foldl (processTask ctx issues) acc).result.pulled = acc.result.pulled ∧
      (ts.foldl (processTask ctx issues) acc).result.conflicts = acc.result.conflicts ∧
      (ts.foldl (processTask ctx issues) acc).state = acc.state ∧
      (ts.foldl (processTask ctx issues) acc).fsLocal = acc.fsLocal ∧
      (ts.foldl (processTask ctx issues) acc).remote = acc.remote
  | [], acc => fun _ => ⟨rfl, rfl, rfl, rfl, rfl, rfl⟩
  | t :: ts, acc => by
    intro hall
    have hskip := hall t (List.mem_cons_self t ts)
    rw [List.foldl_cons]
    rcases hlk : lookupAssoc issues t.issueNumber with _ | i
    · rw [processTask_of_none ctx issues acc t hlk]
      have ih := foldl_processTask_of_skipcond ctx issues ts
        { acc with result :=
            { acc.result with skipped := acc.result.skipped ++ [t.issueNumber] } }
        (fun u hu => hall u (List.mem_cons_of_mem t hu))
      exact ⟨ih.1, ih.2.1, ih.2.2.1, ih.2.2.2.1, ih.2.2.2.2.1, ih.2.2.2.2.2⟩
    · have ha : decideAction (lookupAssoc acc.state.issues t.issueNumber) (hashTask t)
          (hashIssue i) = SyncAction.skip := by
        have := hskip
        simp only [skipCond, hlk] at this
        exact this
      rw [processTask_of_skip ctx issues acc t i hlk ha]
      have ih := foldl_processTask_of_skipcond ctx issues ts
        { acc with result :=
            { acc.result with skipped := acc.result.skipped ++ [t.issueNumber] } }
        (fun u hu => hall u (List.mem_cons_of_mem t hu))
      exact ⟨ih.1, ih.2.1, ih.2.2.1, ih.2.2.2.1, ih.2.2.2.2.1, ih.2.2.2.2.2⟩

theorem sync_allskip_iff (ctx : EngineCtx) (w : SyncWorld) :
    ((sync ctx w).1.pushed = [] ∧ (sync ctx w).1.pulled = [] ∧
      (sync ctx w).1.conflicts = []) ↔
    ∀ t ∈ w.localTasks,
      skipCond (fetchIssues w.remoteIssues (w.localTasks.map TaskDocument.issueNumber))
        w.state.issues t := by
  simp only [sync]
  constructor
  · intro ⟨hp, hl, hc⟩
    exact (foldl_processTask_clean_parts _ _ w.localTasks _ hp hl hc).2.2.2
  · intro hall
    have h := foldl_processTask_of_skipcond ctx
      (fetchIssues w.remoteIssues (w.localTasks.map TaskDocument.issueNumber))
      w.localTasks
      { result := emptyResult, state := w.state, fsLocal := w.localTasks,
        remote := w.remoteIssues }
      hall
    exact ⟨h.1, h.2.1, h.2.2.1⟩

theorem sync_world_of_allskip (ctx : EngineCtx) (w : SyncWorld)
    (hall : ∀ t ∈ w.localTasks,
      skipCond (fetchIssues w.remoteIssues (w.localTasks.map TaskDocument.issueNumber))
        w.state.issues t) :
    (sync ctx w).2.localTasks = w.localTasks ∧
    (sync ctx w).2.remoteIssues = w.remoteIssues ∧
    (sync ctx w).2.state.issues = w.state.issues := by
  simp only [sync]
  have h := foldl_processTask_of_skipcond ctx
    (fetchIssues w.remoteIssues (w.localTasks.map TaskDocument.issueNumber))
    w.localTasks
    { result := emptyResult, state := w.state, fsLocal := w.localTasks,
      remote := w.remoteIssues }
    hall
  exact ⟨h.2.2.2.2.1, h.2.2.2.2.2, by rw [h.2.2.2.1]⟩

/-- C2 (amended): a run in which everything classified as skip is a fixed
point — if the first run produced no pushes, pulls, or conflicts, a second
run over the world it leaves behind produces none either.  (As stated,
idempotence fails: a first run that pushed, pulled, or reported a conflict
need not leave a second run all-skip, because the persisted hashes are
computed from the pre-application task and issue; see the
counterexample.) -/
theorem sync_second_run_clean (ctx1 ctx2 : EngineCtx) (w : SyncWorld)
    (hp : (sync ctx1 w).1.pushed = [])
    (hl : (sync ctx1 w).1.pulled = [])
    (hc : (sync ctx1 w).1.conflicts = []) :
    (sync ctx2 (sync ctx1 w).2).1.pushed = [] ∧
    (sync ctx2 (sync ctx1 w).2).1.pulled = [] ∧
    (sync ctx2 (sync ctx1 w).2).1.conflicts = [] := by
  have hskip := (sync_allskip_iff ctx1 w).mp ⟨hp, hl, hc⟩
  have hw := sync_world_of_allskip ctx1 w hskip
  apply (sync_allskip_iff ctx2 (sync ctx1 w).2).mpr
  intro t ht
  rw [hw.1] at ht
  rw [hw.1, hw.2.1, hw.2.2]
  exact hskip t ht

/-! ## C4: orphan safety -/

theorem ensureStatusSyncT_issueNumber (ctx : EngineCtx) (t : TaskDocument) :
    (ensureStatusSyncT ctx t).1.issueNumber = t.issueNumber := by
  simp only [ensureStatusSyncT]
  split_ifs <;> rfl

theorem fetchIssues_go_lookup (remote : List (Int × GitHubIssueData)) :
    ∀ (nums : List Int) (acc : List (Int × GitHubIssueData)) (n : Int),
      lookupAssoc
        (nums.foldl
          (fun acc m =>
            match lookupAssoc remote m with
            | some d => setAssoc acc m d
            | none => acc)
          acc) n =
      match lookupAssoc remote n with
      | some d => if n ∈ nums then some d else lookupAssoc acc n
      | none => lookupAssoc acc n
  | [], acc, n => by cases lookupAssoc remote n <;> simp
  | m :: nums, acc, n => by
    rw [List.foldl_cons]
    by_cases hnm : n = m
    · subst hnm
      cases hm : lookupAssoc remote n with
      | none =>
        have ih := fetchIssues_go_lookup remote nums acc n
        rw [hm] at ih
        simpa using ih
      | some d =>
        have ih := fetchIssues_go_lookup remote nums (setAssoc acc n d) n
        rw [hm] at ih
        by_cases hin : n ∈ nums
        · simp [hin] at ih ⊢
          exact ih
        · simp [hin] at ih ⊢
          rw [ih, lookupAssoc_setAssoc_self]
    · cases hm : lookupAssoc remote m with
      | none =>
        have ih := fetchIssues_go_lookup remote nums acc n
        cases hn : lookupAssoc remote n with
        | none => rw [hn] at ih; simpa using ih
        | some d =>
          rw [hn] at ih
          simp only [List.mem_cons, hnm, false_or]
          exact ih
      | some d =>
        have ih := fetchIssues_go_lookup remote nums (setAssoc acc m d) n
        have hset : lookupAssoc (setAssoc acc m d) n = lookupAssoc acc n :=
          lookupAssoc_setAssoc_ne acc m n d hnm
        cases hn : lookupAssoc remote n with
        | none => rw [hn] at ih; rw [ih, hset]
        | some d2 =>
          rw [hn] at ih
          simp only [List.mem_cons, hnm, false_or]
          by_cases hin : n ∈ nums
          · simp [hin] at ih ⊢; exact ih
          · simp [hin] at ih ⊢; rw [ih, hset]

theorem fetchIssues_lookup_mem (remote : List (Int × GitHubIssueData)) (nums : List Int)
    (n : Int) (hn : n ∈ nums) :
    lookupAssoc (fetchIssues remote nums) n = lookupAssoc remote n := by
  rw [fetchIssues, fetchIssues_go_lookup]
  cases h : lookupAssoc remote n with
  | none => simp [lookupAssoc]
  | some d => simp [hn]

theorem foldl_processTask_sound (ctx : EngineCtx) (issues : List (Int × GitHubIssueData)) :
    ∀ (ts : List TaskDocument) (acc : SyncAcc),
      (∀ n ∈ acc.result.pushed, (lookupAssoc issues n).isSome = true) →
      (∀ n ∈ acc.result.pulled, (lookupAssoc issues n).isSome = true) →
      (∀ n ∈ (ts.foldl (processTask ctx issues) acc).result.pushed,
          (lookupAssoc issues n).isSome = true) ∧
      (∀ n ∈ (ts.foldl (processTask ctx issues) acc).result.pulled,
          (lookupAssoc issues n).isSome = true)
  | [], _, hp, hl => ⟨hp, hl⟩
  | t :: ts, acc, hp, hl => by
    rw [List.foldl_cons]
    rcases hlk : lookupAssoc issues t.issueNumber with _ | i
    · rw [processTask_of_none ctx issues acc t hlk]
      exact foldl_processTask_sound ctx issues ts _ hp hl
    · rcases ha : decideAction (lookupAssoc acc.state.issues t.issueNumber) (hashTask t)
          (hashIssue i) with _ | _ | _ | _
      · rw [processTask_of_skip ctx issues acc t i hlk ha]
        exact foldl_processTask_sound ctx issues ts _ hp hl
      · rw [processTask_of_push ctx issues acc t i hlk ha]
        refine foldl_processTask_sound ctx issues ts _ ?_ hl
        intro n hn
        rcases List.mem_append.mp hn with hn | hn
        · exact hp n hn
        · rw [List.mem_singleton.mp hn, hlk]; rfl
      · rw [processTask_of_pull ctx issues acc t i hlk ha]
        refine foldl_processTask_sound ctx issues ts _ hp ?_
        intro n hn
        rcases List.mem_append.mp hn with hn | hn
        · exact hl n hn
        · rw [List.mem_singleton.mp hn, hlk]; rfl
      · rw [processTask_of_conflict ctx issues acc t i hlk ha]
        exact foldl_processTask_sound ctx issues ts _ hp hl

theorem foldl_processTask_remote_of_unfetched (ctx : EngineCtx)
    (issues : List (Int × GitHubIssueData)) :
    ∀ (ts : List TaskDocument) (acc : SyncAcc) (n : Int), lookupAssoc issues n = none →
      lookupAssoc (ts.foldl (processTask ctx issues) acc).remote n =
        lookupAssoc acc.remote n
  | [], _, _, _ => rfl
  | t :: ts, acc, n, hn => by
    rw [List.foldl_cons]
    rcases hlk : lookupAssoc issues t.issueNumber with _ | i
    · rw [processTask_of_none ctx issues acc t hlk]
      exact foldl_processTask_remote_of_unfetched ctx issues ts _ n hn
    · have hne : n ≠ t.issueNumber := by
        intro he
        rw [he, hlk] at hn
        exact Option.noConfusion hn
      rcases ha : decideAction (lookupAssoc acc.state.issues t.issueNumber) (hashTask t)
          (hashIssue i) with _ | _ | _ | _
      · rw [processTask_of_skip ctx issues acc t i hlk ha]
        exact foldl_processTask_remote_of_unfetched ctx issues ts _ n hn
      · rw [processTask_of_push ctx issues acc t i hlk ha]
        rw [foldl_processTask_remote_of_unfetched ctx issues ts _ n hn]
        show lookupAssoc
          (pushTaskFS ctx acc.remote (ensureStatusSyncT ctx t).1 (some i)) n =
          lookupAssoc acc.remote n
        simp only [pushTaskFS, updateIssueRemote, ensureStatusSyncT_issueNumber]
        cases lookupAssoc acc.remote t.issueNumber with
        | none => rfl
        | some old => exact lookupAssoc_setAssoc_ne _ _ _ _ hne
      · rw [processTask_of_pull ctx issues acc t i hlk ha]
        exact foldl_processTask_remote_of_unfetched ctx issues ts _ n hn
      · rw [processTask_of_conflict ctx issues acc t i hlk ha]
        exact foldl_processTask_remote_of_unfetched ctx issues ts _ n hn

theorem detectOrphanedTasks_mem (issues : List (Int × GitHubIssueData)) :
    ∀ (tasks : List TaskDocument) (t : TaskDocument), t ∈ tasks →
      lookupAssoc issues t.issueNumber = none →
      t.issueNumber ∈ detectOrphanedTasks tasks issues
  | [], _, hmem, _ => absurd hmem (List.not_mem_nil _)
  | u :: tasks, t, hmem, hnone => by
    have hstep : detectOrphanedTasks (u :: tasks) issues =
        if (lookupAssoc issues u.issueNumber).isNone then
          u.issueNumber :: detectOrphanedTasks tasks issues
        else detectOrphanedTasks tasks issues := rfl
    rw [hstep]
    rcases List.mem_cons.mp hmem with he | hmem2
    · subst he
      rw [hnone]
      simp
    · have ih := detectOrphanedTasks_mem issues tasks t hmem2 hnone
      by_cases hu : (lookupAssoc issues u.issueNumber).isNone
      · rw [if_pos hu]
        exact List.mem_cons_of_mem _ ih
      · rw [if_neg hu]
        exact ih

/-- C4: a discovered local document whose issue number has no fetched
remote record is skipped: its number lands in the skipped set, never in
pushed or pulled, it is reported by detectOrphanedTasks, and the run
leaves the remote store untouched at that number (no creation happens —
the sync loop contains no issue-creation call at all). -/
theorem sync_orphan_safety (ctx : EngineCtx) (w : SyncWorld) (t : TaskDocument)
    (hmem : t ∈ w.localTasks)
    (horph :
      lookupAssoc (fetchIssues w.remoteIssues (w.localTasks.map TaskDocument.issueNumber))
        t.issueNumber = none) :
    t.issueNumber ∈ (sync ctx w).1.skipped ∧
    t.issueNumber ∉ (sync ctx w).1.pushed ∧
    t.issueNumber ∉ (sync ctx w).1.pulled ∧
    t.issueNumber ∈ detectOrphanedTasks w.localTasks
      (fetchIssues w.remoteIssues (w.localTasks.map TaskDocument.issueNumber)) ∧
    lookupAssoc (sync ctx w).2.remoteIssues t.issueNumber = none := by
  have hremote : lookupAssoc w.remoteIssues t.issueNumber = none := by
    rw [← fetchIssues_lookup_mem w.remoteIssues (w.localTasks.map TaskDocument.issueNumber)
      t.issueNumber (List.mem_map_of_mem TaskDocument.issueNumber hmem)]
    exact horph
  obtain ⟨l₁, l₂, hsplit⟩ := List.append_of_mem hmem
  simp only [sync]
  set issues := fetchIssues w.remoteIssues (List.map TaskDocument.issueNumber w.localTasks)
    with hIdef
  set acc0 : SyncAcc :=
    { result := emptyResult, state := w.state, fsLocal := w.localTasks,
      remote := w.remoteIssues } with hacc0
  refine ⟨?_, ?_, ?_, ?_, ?_⟩
  · rw [show w.localTasks.foldl (processTask ctx issues) acc0 =
          l₂.foldl (processTask ctx issues)
            (processTask ctx issues (l₁.foldl (processTask ctx issues) acc0) t) by
        rw [hsplit, List.foldl_append, List.foldl_cons]]
    obtain ⟨dp, dl, dc, ds, hg⟩ := foldl_processTask_result_grow ctx issues l₂
      (processTask ctx issues (l₁.foldl (processTask ctx issues) acc0) t)
    rw [hg.2.2.2, processTask_of_none ctx issues _ t horph]
    simp [List.mem_append]
  · intro hmem2
    have hs := foldl_processTask_sound ctx issues w.localTasks acc0
      (by intro n hn; simp [hacc0, emptyResult] at hn) 
      (by intro n hn; simp [hacc0, emptyResult] at hn)
    have := hs.1 t.issueNumber hmem2
    rw [horph] at this
    simp at this
  · intro hmem2
    have hs := foldl_processTask_sound ctx issues w.localTasks acc0
      (by intro n hn; simp [hacc0, emptyResult] at hn)
      (by intro n hn; simp [hacc0, emptyResult] at hn)
    have := hs.2 t.issueNumber hmem2
    rw [horph] at this
    simp at this
  · exact detectOrphanedTasks_mem issues w.localTasks t hmem horph
  · rw [foldl_processTask_remote_of_unfetched ctx issues w.localTasks acc0 t.issueNumber horph]
    exact hremote

/-! ## C1, C2, C4: counterexamples and witnesses -/

set_option maxRecDepth 12000 in
/-- C1 counterexample: two discovered files share issue number 5.  The
first is classified push against the stale persisted local hash and
overwrites the in-memory state entry; the second, identical in content,
then matches the *updated* entry and is skipped — so number 5 lands in
both the pushed and the skipped set ("exactly one result set" fails), and
the second document's action does not follow the persisted pair (its fresh
local hash also differs from the persisted "stale" value, which would
demand push). -/
theorem sync_classification_counterexample :
    taskA5.issueNumber = 5 ∧ taskB5.issueNumber = 5 ∧
    hashTask taskB5 ≠ "stale" ∧
    (5 : Int) ∈ (sync cexCtx worldDup).1.pushed ∧
    (5 : Int) ∈ (sync cexCtx worldDup).1.skipped := by
  decide

/-- Witness for C1: instantiating the matrix theorem on a concrete world
whose single task matches the stored pair. -/
theorem sync_classification_matrix_witness :
    ((worldSkip.localTasks.map TaskDocument.issueNumber).Nodup ∧
      taskA5 ∈ worldSkip.localTasks ∧
      lookupAssoc (fetchIssues worldSkip.remoteIssues
        (worldSkip.localTasks.map TaskDocument.issueNumber)) taskA5.issueNumber =
        some issue5) ∧
    (taskA5.issueNumber ∈ (sync cexCtx worldSkip).1.skipped ↔
      localUnchanged worldSkip.state.issues taskA5 ∧
      remoteUnchanged worldSkip.state.issues taskA5 issue5) :=
  ⟨⟨by decide, by decide, by decide⟩,
    (sync_classification_matrix cexCtx worldSkip taskA5 issue5 (by decide) (by decide)
      (by decide)).1⟩

set_option maxRecDepth 12000 in
/-- C2 counterexample: a task whose stored pair matches neither fresh hash
conflicts on the first run; the run applies nothing and stores nothing for
it, so the second run — with no external change — reports the same
conflict: the second run's conflict set is not empty. -/
theorem sync_idempotence_counterexample :
    (sync cexCtx2 (sync cexCtx worldConf).2).1.conflicts ≠ [] := by
  decide

set_option maxRecDepth 12000 in
/-- Witness for C2 (amended): a first run that skips everything leaves a
second run that also pushes, pulls, and conflicts nothing. -/
theorem sync_second_run_clean_witness :
    ((sync cexCtx worldSkip).1.pushed = [] ∧ (sync cexCtx worldSkip).1.pulled = [] ∧
      (sync cexCtx worldSkip).1.conflicts = []) ∧
    ((sync cexCtx2 (sync cexCtx worldSkip).2).1.pushed = [] ∧
      (sync cexCtx2 (sync cexCtx worldSkip).2).1.pulled = [] ∧
      (sync cexCtx2 (sync cexCtx worldSkip).2).1.conflicts = []) :=
  ⟨⟨by decide, by decide, by decide⟩,
    sync_second_run_clean cexCtx cexCtx2 worldSkip (by decide) (by decide) (by decide)⟩

/-- Witness for C4: a concrete orphaned document. -/
theorem sync_orphan_safety_witness :
    (taskOrphan9 ∈ worldOrphan.localTasks ∧
      lookupAssoc (fetchIssues worldOrphan.remoteIssues
        (worldOrphan.localTasks.map TaskDocument.issueNumber)) taskOrphan9.issueNumber =
        none) ∧
    (taskOrphan9.issueNumber ∈ (sync cexCtx worldOrphan).1.skipped ∧
      taskOrphan9.issueNumber ∉ (sync cexCtx worldOrphan).1.pushed ∧
      taskOrphan9.issueNumber ∉ (sync cexCtx worldOrphan).1.pulled ∧
      taskOrphan9.issueNumber ∈ detectOrphanedTasks worldOrphan.localTasks
        (fetchIssues worldOrphan.remoteIssues
          (worldOrphan.localTasks.map TaskDocument.issueNumber)) ∧
      lookupAssoc (sync cexCtx worldOrphan).2.remoteIssues taskOrphan9.issueNumber = none) :=
  ⟨⟨by decide, by decide⟩,
    sync_orphan_safety cexCtx worldOrphan taskOrphan9 (by decide) (by decide)⟩

/-! ## C3: state stored by resolveConflict -/

set_option maxRecDepth 12000 in
/-- C3 (code bug): after resolveConflict applies a 'local' decision, the
persisted entry holds the hashes of the conflict's captured local document
and remote record — not a post-resolution pair, and not an equal pair: the
two stored hashes differ, and the stored remote hash is not the hash of
the remote record the resolution just wrote.  The repository's own
documentation (docs/reference/conflict-resolution.md, "State After
Resolution") requires both fields to hold the same new hash. -/
theorem resolveConflict_stores_preresolution_hashes :
    lookupAssoc (resolveConflict cexCtx worldConf conflict5
        ResolutionChoice.useLocal).state.issues 5 =
      some { localHash := hashTask taskA5, remoteHash := hashIssue issue5,
             lastSyncedAt := cexCtx.now } ∧
    hashTask taskA5 ≠ hashIssue issue5 ∧
    (lookupAssoc (resolveConflict cexCtx worldConf conflict5
        ResolutionChoice.useLocal).remoteIssues 5).map hashIssue ≠
      some (hashIssue issue5) := by
  decide

/-! ## C5: the title-prefix normalisation the sources lack -/

set_option maxRecDepth 12000 in
/-- C5 (code bug): the FieldMapper revision in src hashes the raw
frontmatter — there is no title normalisation and no keepTitlePrefixes
toggle — so two documents identical but for a `[#001]` title marker hash
differently even in the default configuration, contradicting the
repository's own tests (field-mapper.test.ts, "should normalize title with
[#NNN] prefix in hash calculation") and the CLI's `--keep-title-prefixes`
option, which constructs `new FieldMapper({keepTitlePrefixes})`. -/
theorem hashTask_title_marker_sensitive :
    taskPrefixed.frontmatter.title = "[#001] Fix X" ∧
    taskPlain.frontmatter.title = "Fix X" ∧
    { taskPrefixed.frontmatter with title := "Fix X" } = taskPlain.frontmatter ∧
    taskPrefixed.body = taskPlain.body ∧
    hashTask taskPrefixed ≠ hashTask taskPlain := by
  decide

/-! ## C6: the status tie-break -/

/-- C6 counterexample: with the status field saying backlog, the directory
saying active, no `status_last_modified`, and a directory mtime at the
epoch, the claim demands the directory-implied status (absent field ⇒
directory wins) but the code returns the frontmatter status: the absent
field is treated as the epoch timestamp and the strict comparison fails. -/
theorem resolveStatusConflict_counterexample :
    taskEpochDir.frontmatter.status = some "backlog" ∧
    taskEpochDir.frontmatter.status_last_modified = none ∧
    getStatusFromPath taskEpochDir.filepath = "active" ∧
    resolveStatusConflict (fun _ => 0) taskEpochDir = "backlog" := by
  refine ⟨rfl, rfl, by decide, by decide⟩

/-- C6 (amended): resolveStatusConflict returns the directory-implied
status exactly when the directory's modification time is strictly more
recent than `status_last_modified` — an absent field standing for the
epoch, so absence defaults to the directory whenever the directory mtime
is after the epoch — and the frontmatter status otherwise; when the field
is absent the directory status is returned outright; and whenever the
resolved status differs from the recorded one, ensureStatusSync rewrites
the document with the resolved status and a fresh `status_last_modified`,
and the engine's push branch sends the rewritten document to the remote
update. -/
theorem resolveStatusConflict_tiebreak (ctx : EngineCtx) (t : TaskDocument) :
    (t.frontmatter.status = none →
      resolveStatusConflict ctx.jsDate t = getStatusFromPath t.filepath) ∧
    (∀ s, t.frontmatter.status = some s → s ≠ getStatusFromPath t.filepath →
      resolveStatusConflict ctx.jsDate t =
        (if (match t.frontmatter.status_last_modified with
             | some x => ctx.jsDate x
             | none => 0) < t.folderLastModified
         then getStatusFromPath t.filepath else s)) ∧
    (t.frontmatter.status ≠ some (resolveStatusConflict ctx.jsDate t) →
      (ensureStatusSyncT ctx t).1.frontmatter.status =
          some (resolveStatusConflict ctx.jsDate t) ∧
        (ensureStatusSyncT ctx t).1.frontmatter.status_last_modified = some ctx.now ∧
        (ensureStatusSyncT ctx t).2 = true) ∧
    (∀ issues acc issue, lookupAssoc issues t.issueNumber = some issue →
      decideAction (lookupAssoc acc.state.issues t.issueNumber) (hashTask t)
        (hashIssue issue) = SyncAction.push →
      (processTask ctx issues acc t).remote =
        pushTaskFS ctx acc.remote (ensureStatusSyncT ctx t).1 (some issue)) := by
  refine ⟨?_, ?_, ?_, ?_⟩
  · intro h
    simp [resolveStatusConflict, h]
  · intro s hs hne
    simp only [resolveStatusConflict, hs]
    rw [if_neg hne]
  · intro hne
    simp only [ensureStatusSyncT]
    rw [if_pos hne]
    exact ⟨rfl, rfl, rfl⟩
  · intro issues acc issue hl ha
    rw [processTask_of_push ctx issues acc t issue hl ha]

/-- Witness for C6 (amended): the stale-frontmatter document resolves to
the directory status and is rewritten accordingly. -/
theorem resolveStatusConflict_tiebreak_witness :
    resolveStatusConflict ctxDate5.jsDate taskStale = "active" ∧
    (ensureStatusSyncT ctxDate5 taskStale).1.frontmatter.status =
      some (resolveStatusConflict ctxDate5.jsDate taskStale) ∧
    (ensureStatusSyncT ctxDate5 taskStale).1.frontmatter.status_last_modified =
      some ctxDate5.now := by
  have h := resolveStatusConflict_tiebreak ctxDate5 taskStale
  have hr : resolveStatusConflict ctxDate5.jsDate taskStale = "active" :=
    (h.2.1 "backlog" (by decide) (by decide)).trans (by decide)
  have hne : taskStale.frontmatter.status ≠
      some (resolveStatusConflict ctxDate5.jsDate taskStale) := by
    rw [hr]
    decide
  exact ⟨hr, (h.2.2.1 hne).1, (h.2.2.1 hne).2.1⟩

/-! ## C9: loadState totality -/

/-- C9: loadState is total over the modelled filesystem states — a missing
file or a content that fails to parse both yield the fresh state with the
epoch `lastSync` and an empty issues map; no exception escapes (the
function returns a SyncState for every input by construction). -/
theorem loadState_total (parseJson : String → Option SyncState) (content : String) :
    loadState parseJson none = freshSyncState ∧
    (parseJson content = none → loadState parseJson (some content) = freshSyncState) ∧
    freshSyncState.lastSync = "1970-01-01T00:00:00.000Z" ∧
    freshSyncState.issues = [] := by
  refine ⟨rfl, ?_, rfl, rfl⟩
  intro h
  simp [loadState, h]

/-- Witness for C9: a parser that rejects everything still yields the
fresh state. -/
theorem loadState_total_witness :
    (fun _ : String => (none : Option SyncState)) "not json" = none ∧
    loadState (fun _ => none) (some "not json") = freshSyncState :=
  ⟨rfl, (loadState_total (fun _ => none) "not json").2.1 rfl⟩

/-! ## C10: moveTask -/

/-- C10: moving a task to a status whose directory already contains it (the
join of the tasks dir, the status, and the filename equals the current
path) returns the document unchanged with no rename; otherwise the file is
renamed into the target status directory keeping its filename, and the
returned document differs from the input in `filepath` alone. -/
theorem moveTask_spec (tasksDir : String) (task : TaskDocument) (newStatus : String) :
    (task.filepath = pathJoin (pathJoin tasksDir newStatus) task.filename →
      moveTask tasksDir task newStatus = (task, none)) ∧
    (task.filepath ≠ pathJoin (pathJoin tasksDir newStatus) task.filename →
      moveTask tasksDir task newStatus =
        ({ task with filepath := pathJoin (pathJoin tasksDir newStatus) task.filename },
          some (task.filepath, pathJoin (pathJoin tasksDir newStatus) task.filename)) ∧
      (moveTask tasksDir task newStatus).1.filename = task.filename ∧
      (moveTask tasksDir task newStatus).1.issueNumber = task.issueNumber ∧
      (moveTask tasksDir task newStatus).1.frontmatter = task.frontmatter ∧
      (moveTask tasksDir task newStatus).1.body = task.body ∧
      (moveTask tasksDir task newStatus).1.lastModified = task.lastModified ∧
      (moveTask tasksDir task newStatus).1.folderLastModified = task.folderLastModified ∧
      (moveTask tasksDir task newStatus).1.filepath =
        pathJoin (pathJoin tasksDir newStatus) task.filename) := by
  constructor
  · intro h
    simp [moveTask, h]
  · intro h
    simp [moveTask, h]

/-- Witness for C10: moving the active task to completed renames it and
changes only the filepath. -/
theorem moveTask_spec_witness :
    taskA5.filepath ≠ pathJoin (pathJoin "docs/tasks" "completed") taskA5.filename ∧
    moveTask "docs/tasks" taskA5 "completed" =
      ({ taskA5 with filepath := pathJoin (pathJoin "docs/tasks" "completed") taskA5.filename },
        some (taskA5.filepath, pathJoin (pathJoin "docs/tasks" "completed") taskA5.filename)) :=
  ⟨by decide, ((moveTask_spec "docs/tasks" taskA5 "completed").2 (by decide)).1⟩

/-! ## C8: label-order invariance of hashIssue -/

theorem charsLeB_total : ∀ as bs : List Char, charsLeB as bs = true ∨ charsLeB bs as = true
  | [], _ => Or.inl rfl
  | _ :: _, [] => Or.inr rfl
  | a :: as, b :: bs => by
    by_cases h : a = b
    · subst h
      simp only [charsLeB, if_pos rfl]
      exact charsLeB_total as bs
    · have h2 : ¬b = a := fun he => h he.symm
      simp only [charsLeB, if_neg h, if_neg h2]
      rcases lt_trichotomy a b with hl | he | hg
      · exact Or.inl (by simp [hl])
      · exact absurd he h
      · exact Or.inr (by simp [hg])

theorem charsLeB_trans :
    ∀ as bs cs : List Char,
      charsLeB as bs = true → charsLeB bs cs = true → charsLeB as cs = true
  | [], _, _ => fun _ _ => rfl
  | _ :: _, [], _ => fun h _ => by cases h
  | _ :: _, _ :: _, [] => fun _ h => by cases h
  | a :: as, b :: bs, c :: cs => by
    intro h1 h2
    by_cases hab : a = b
    · subst hab
      simp only [charsLeB, if_pos rfl] at h1
      by_cases hac : a = c
      · subst hac
        simp only [charsLeB, if_pos rfl] at h2 ⊢
        exact charsLeB_trans as bs cs h1 h2
      · simp only [charsLeB, if_neg hac] at h2 ⊢
        exact h2
    · simp only [charsLeB, if_neg hab, decide_eq_true_eq] at h1
      by_cases hbc : b = c
      · subst hbc
        simp only [charsLeB, if_neg hab, decide_eq_true_eq]
        exact h1
      · simp only [charsLeB, if_neg hbc, decide_eq_true_eq] at h2
        have hac : a < c := lt_trans h1 h2
        simp only [charsLeB, if_neg (ne_of_lt hac), decide_eq_true_eq]
        exact hac

theorem charsLeB_antisymm :
    ∀ as bs : List Char, charsLeB as bs = true → charsLeB bs as = true → as = bs
  | [], [] => fun _ _ => rfl
  | [], _ :: _ => fun _ h2 => by cases h2
  | _ :: _, [] => fun h1 _ => by cases h1
  | a :: as, b :: bs => by
    intro h1 h2
    by_cases hab : a = b
    · subst hab
      simp only [charsLeB, if_pos rfl] at h1 h2
      rw [charsLeB_antisymm as bs h1 h2]
    · have hba : ¬b = a := fun he => hab he.symm
      simp only [charsLeB, if_neg hab, decide_eq_true_eq] at h1
      simp only [charsLeB, if_neg hba, decide_eq_true_eq] at h2
      exact absurd h1 (lt_asymm h2)

/-- C8: FieldMapper.hashIssue is invariant under any permutation of the
record's label list (the labels are sorted before serialization). -/
theorem hashIssue_label_order_invariant (issue : GitHubIssueData) (labels2 : List String)
    (hperm : labels2.Perm issue.labels) :
    hashIssue { issue with labels := labels2 } = hashIssue issue := by
  haveI : IsTotal String jsStrLe := ⟨fun a b => charsLeB_total a.data b.data⟩
  haveI : IsTrans String jsStrLe := ⟨fun a b c h1 h2 => charsLeB_trans a.data b.data c.data h1 h2⟩
  haveI : IsAntisymm String jsStrLe := ⟨fun a b h1 h2 => by
    cases a with
    | mk da =>
      cases b with
      | mk db => rw [charsLeB_antisymm da db h1 h2]⟩
  have hsort : jsSortStrings labels2 = jsSortStrings issue.labels :=
    List.eq_of_perm_of_sorted
      ((List.perm_insertionSort jsStrLe labels2).trans
        (hperm.trans (List.perm_insertionSort jsStrLe issue.labels).symm))
      (List.sorted_insertionSort jsStrLe labels2)
      (List.sorted_insertionSort jsStrLe issue.labels)
  calc
    hashIssue { issue with labels := labels2 } =
        generateHash
          ("\x7b" ++ jsonField "title" (jsonStr issue.title) ++
            "," ++ jsonField "body" (jsonNullableStr issue.body) ++
            "," ++ jsonField "labels" (jsonStrList (jsSortStrings labels2)) ++
            "," ++ jsonField "assignee" (jsonNullableStr issue.assignee) ++
            "," ++ jsonField "state" (jsonStr issue.state) ++ "\x7d") := rfl
    _ = hashIssue issue := by rw [hsort]; rfl

/-- Witness for C8: transposing the two labels of a concrete record leaves
the hash unchanged. -/
theorem hashIssue_label_order_invariant_witness :
    (["high", "bug"] : List String).Perm issueLabels.labels ∧
    hashIssue issueLabelsSwapped = hashIssue issueLabels :=
  ⟨List.Perm.swap "bug" "high" [],
    hashIssue_label_order_invariant issueLabels ["high", "bug"]
      (List.Perm.swap "bug" "high" [])⟩

/-! ## C7: the fallible batch fetch -/

theorem chunkArrayGo_nil {α : Type} (size fuel : Nat) :
    chunkArrayGo size fuel ([] : List α) = [] := by
  cases fuel <;> rfl

theorem chunkArrayGo_fuel {α : Type} (size : Nat) (hsize : 0 < size) :
    ∀ (f1 f2 : Nat) (l : List α), l.length ≤ f1 → l.length ≤ f2 →
      chunkArrayGo size f1 l = chunkArrayGo size f2 l
  | _, _, [], _, _ => by rw [chunkArrayGo_nil, chunkArrayGo_nil]
  | f1 + 1, f2 + 1, x :: xs, h1, h2 => by
    simp only [chunkArrayGo]
    rw [chunkArrayGo_fuel size hsize f1 f2 ((x :: xs).drop size)
      (by simp only [List.length_drop, List.length_cons] at *; omega)
      (by simp only [List.length_drop, List.length_cons] at *; omega)]
  | 0, _, x :: xs, h1, _ => by simp at h1
  | _ + 1, 0, x :: xs, _, h2 => by simp at h2

theorem promiseAll_then_set_eq_seq (fetch : Int → FetchOutcome) :
    ∀ (chunk : List Int) (acc : List (Int × GitHubIssueData)),
      (match promiseAllIssues fetch chunk with
        | Except.error e => Except.error e
        | Except.ok results =>
          Except.ok (results.foldl
            (fun m pr =>
              match pr.2 with
              | some d => setAssoc m pr.1 d
              | none => m)
            acc)) = seqGetIssues fetch chunk acc
  | [], acc => rfl
  | n :: rest, acc => by
    cases hg : getIssue fetch n with
    | error e => simp only [promiseAllIssues, seqGetIssues, hg]
    | ok r =>
      have ih := promiseAll_then_set_eq_seq fetch rest
        (match r with
          | some d => setAssoc acc n d
          | none => acc)
      cases hp : promiseAllIssues fetch rest with
      | error e =>
        rw [hp] at ih
        simp only [promiseAllIssues, seqGetIssues, hg, hp]
        cases r with
        | none => simpa using ih
        | some d => simpa using ih
      | ok rs =>
        rw [hp] at ih
        simp only [promiseAllIssues, seqGetIssues, hg, hp, List.foldl_cons]
        cases r with
        | none => simpa using ih
        | some d => simpa using ih

theorem seqGetIssues_append (fetch : Int → FetchOutcome) :
    ∀ (l₁ l₂ : List Int) (acc : List (Int × GitHubIssueData)),
      seqGetIssues fetch (l₁ ++ l₂) acc =
        (match seqGetIssues fetch l₁ acc with
          | Except.error e => Except.error e
          | Except.ok m => seqGetIssues fetch l₂ m)
  | [], _, _ => rfl
  | n :: l₁, l₂, acc => by
    cases hg : getIssue fetch n with
    | error e => simp only [List.cons_append, seqGetIssues, hg]
    | ok r =>
      cases r with
      | none =>
        simp only [List.cons_append, seqGetIssues, hg]
        exact seqGetIssues_append fetch l₁ l₂ acc
      | some d =>
        simp only [List.cons_append, seqGetIssues, hg]
        exact seqGetIssues_append fetch l₁ l₂ (setAssoc acc n d)

theorem getIssuesChunks_eq_seq (fetch : Int → FetchOutcome) :
    ∀ (fuel : Nat) (l : List Int) (acc : List (Int × GitHubIssueData)),
      l.length ≤ fuel →
      getIssuesChunks fetch (chunkArrayGo 10 fuel l) acc = seqGetIssues fetch l acc
  | fuel, [], acc, _ => by rw [chunkArrayGo_nil]; rfl
  | 0, x :: xs, _, h => by simp at h
  | fuel + 1, x :: xs, acc, h => by
    have hdrop : ((x :: xs).drop 10).length ≤ fuel := by
      simp only [List.length_drop, List.length_cons] at *
      omega
    have hsplit : (x :: xs).take 10 ++ (x :: xs).drop 10 = x :: xs :=
      List.take_append_drop 10 (x :: xs)
    have ha := promiseAll_then_set_eq_seq fetch ((x :: xs).take 10) acc
    rw [show chunkArrayGo 10 (fuel + 1) (x :: xs) =
        (x :: xs).take 10 :: chunkArrayGo 10 fuel ((x :: xs).drop 10) from rfl]
    rw [show seqGetIssues fetch (x :: xs) acc =
        seqGetIssues fetch ((x :: xs).take 10 ++ (x :: xs).drop 10) acc by rw [hsplit]]
    rw [seqGetIssues_append]
    cases hp : promiseAllIssues fetch ((x :: xs).take 10) with
    | error e =>
      rw [hp] at ha
      simp only [getIssuesChunks]
      rw [hp, ← ha]
    | ok rs =>
      rw [hp] at ha
      simp only [getIssuesChunks]
      rw [hp, ← ha]
      exact getIssuesChunks_eq_seq fetch fuel ((x :: xs).drop 10) _ hdrop

theorem seqGetIssues_lookup (fetch : Int → FetchOutcome) :
    ∀ (l : List Int) (acc : List (Int × GitHubIssueData)),
      (∀ n ∈ l, isFetchFailure (fetch n) = false) →
      ∃ m, seqGetIssues fetch l acc = Except.ok m ∧
        ∀ n, lookupAssoc m n =
          (match fetchRecord (fetch n) with
            | some d => if n ∈ l then some d else lookupAssoc acc n
            | none => lookupAssoc acc n)
  | [], acc, _ =>
    ⟨acc, rfl, fun n => by cases fetchRecord (fetch n) <;> simp⟩
  | k :: l, acc, hok => by
    have hknof : isFetchFailure (fetch k) = false := hok k (List.mem_cons_self k l)
    have hrest : ∀ n ∈ l, isFetchFailure (fetch n) = false :=
      fun n hn => hok n (List.mem_cons_of_mem k hn)
    cases hf : fetch k with
    | fetchError msg => rw [hf] at hknof; cases hknof
    | found d =>
      obtain ⟨m, hm, hchar⟩ := seqGetIssues_lookup fetch l (setAssoc acc k d) hrest
      refine ⟨m, ?_, ?_⟩
      · simp only [seqGetIssues, getIssue, hf]
        exact hm
      · intro n
        have hc := hchar n
        by_cases hnk : n = k
        · subst hnk
          rw [hf] at hc ⊢
          simp only [fetchRecord] at hc ⊢
          by_cases hin : n ∈ l
          · simp only [if_pos hin] at hc
            simp [List.mem_cons, hin, hc]
          · simp only [if_neg hin, lookupAssoc_setAssoc_self] at hc
            simp [List.mem_cons, hc]
        · have hacc : lookupAssoc (setAssoc acc k d) n = lookupAssoc acc n :=
            lookupAssoc_setAssoc_ne acc k n d hnk
          rw [hacc] at hc
          rw [hc]
          cases fetchRecord (fetch n) with
          | none => rfl
          | some d2 =>
            simp only [List.mem_cons, hnk, false_or]
    | foundPullRequest d =>
      obtain ⟨m, hm, hchar⟩ := seqGetIssues_lookup fetch l acc hrest
      refine ⟨m, ?_, ?_⟩
      · simp only [seqGetIssues, getIssue, hf]
        exact hm
      · intro n
        have hc := hchar n
        rw [hc]
        by_cases hnk : n = k
        · subst hnk
          rw [hf]
          simp only [fetchRecord]
        · cases fetchRecord (fetch n) with
          | none => rfl
          | some d2 => simp only [List.mem_cons, hnk, false_or]
    | notFound =>
      obtain ⟨m, hm, hchar⟩ := seqGetIssues_lookup fetch l acc hrest
      refine ⟨m, ?_, ?_⟩
      · simp only [seqGetIssues, getIssue, hf]
        exact hm
      · intro n
        have hc := hchar n
        rw [hc]
        by_cases hnk : n = k
        · subst hnk
          rw [hf]
          simp only [fetchRecord]
        · cases fetchRecord (fetch n) with
          | none => rfl
          | some d2 => simp only [List.mem_cons, hnk, false_or]

/-- C7 (amended): when no requested number's fetch fails with a non-404
error, getIssues succeeds and returns a map holding exactly the requested
numbers whose fetch produced a (non-pull-request) record — 404s and pull
requests are silently omitted.  A non-404 failure for any single number,
however, rejects the whole batch call (see the counterexample). -/
theorem getIssues_batch (fetch : Int → FetchOutcome) (nums : List Int)
    (hok : ∀ n ∈ nums, isFetchFailure (fetch n) = false) :
    ∃ m, getIssues fetch nums = Except.ok m ∧
      ∀ n, lookupAssoc m n = (if n ∈ nums then fetchRecord (fetch n) else none) := by
  rw [getIssues, chunkArray, getIssuesChunks_eq_seq fetch nums.length nums [] (le_refl _)]
  obtain ⟨m, hm, hchar⟩ := seqGetIssues_lookup fetch nums [] hok
  refine ⟨m, hm, ?_⟩
  intro n
  have hc := hchar n
  cases hf : fetchRecord (fetch n) with
  | none =>
    rw [hf] at hc
    simp only [lookupAssoc] at hc
    rw [hc]
    cases hin : decide (n ∈ nums) <;> simp_all
  | some d =>
    rw [hf] at hc
    simp only [lookupAssoc] at hc
    rw [hc]

/-- C7 counterexample: a single non-404 failure rejects the whole batch
call instead of omitting the number from the map — getIssue rethrows
anything but a 404, and the surrounding Promise.all in getIssues
propagates the rejection with no catch. -/
theorem getIssues_error_propagates :
    getIssues errFetch [1] = Except.error "boom" := rfl

/-- Witness for C7 (amended): one present issue, one 404. -/
theorem getIssues_batch_witness :
    (∀ n ∈ ([1, 2] : List Int), isFetchFailure (fetch7 n) = false) ∧
    (∃ m, getIssues fetch7 [1, 2] = Except.ok m ∧
      ∀ n, lookupAssoc m n = (if n ∈ ([1, 2] : List Int) then fetchRecord (fetch7 n) else none)) :=
  ⟨by decide, getIssues_batch fetch7 [1, 2] (by decide)⟩
